import Mathlib

/-!
Verification of the IGC flight-log parser (package `igc`, file `parser.go` and
the record-type declarations in `igc.go`).

The parser is embedded shallowly: lines are lists of characters (the source
works on ASCII bytes), `time.Time` values are integers counting nanoseconds
since the Unix epoch (Go's `time` package in UTC has no DST and no leap
seconds, so `time.Date` and `AddDate(0, 0, 1)` are pure calendar arithmetic),
and Go's `nil` record pointers become `Option`.  Float64 latitude/longitude
fields are kept as their exact integer components (degrees, scaled minutes,
scale divisor); no claim concerns the floating-point division.
-/

/-- Lines are lists of characters (the Go parser works byte-wise on ASCII). -/
abbrev Line := List Char

/-! ## Integer parsing: `atoi` from parser.go -/

/-- Errors of the parser, one constructor per error type in parser.go. -/
inductive PErr where
  | atoiSyntaxError (num : Line)
  | invalidAddition (tlc : Line) (startColumn finishColumn : Int) (message : String)
  | invalidRecord (c : Char)
  | missingAddition (tlc : Line) (startColumn finishColumn : Int)
  | unknownRecordType (c : Char)
  | noDate
  | invalidChar (c : Char)
  deriving DecidableEq, Repr

/-- Numeric value of a decimal digit character. -/
def digitVal (c : Char) : Int := (c.toNat : Int) - ('0'.toNat : Int)

/-- Model of `atoi` from parser.go: optional leading minus sign, then one or more
decimal digits; anything else is a syntax error carrying the original text. -/
def atoi (data : Line) : Except PErr Int :=
  let sd : Int × Line :=
    match data with
    | '-' :: rest => (-1, rest)
    | _ => (1, data)
  if sd.2.isEmpty then .error (.atoiSyntaxError data)
  else if sd.2.all Char.isDigit then
    .ok (sd.1 * sd.2.foldl (fun r c => 10 * r + digitVal c) 0)
  else .error (.atoiSyntaxError data)

/-- The integer value `atoi` assigns, with the Go zero value on error (call
sites that discard the error, `v, _ := atoi(...)`). -/
def atoiV (data : Line) : Int :=
  match atoi data with
  | .ok v => v
  | .error _ => 0

/-! ## Calendar arithmetic: Go `time.Date` in UTC -/

/-- Nanoseconds in one day; `AddDate(0, 0, 1)` on a UTC time adds exactly
this amount. -/
def dayNs : Int := 86400000000000

/-- Days from the civil epoch 1970-01-01 to year/month/day, with Go's
`time.Date` normalization of out-of-range months and days (proleptic
Gregorian calendar). -/
def daysFromCivil (y m d : Int) : Int :=
  let y1 := y + (m - 1).fdiv 12
  let m1 := (m - 1).fmod 12 + 1
  let y2 := if m1 ≤ 2 then y1 - 1 else y1
  let era := y2.fdiv 400
  let yoe := y2 - era * 400
  let mp := (m1 + 9).fmod 12
  let doy := (153 * mp + 2).fdiv 5 + d - 1
  let doe := yoe * 365 + yoe.fdiv 4 - yoe.fdiv 100 + doy
  era * 146097 + doe - 719468

/-- Go `time.Date(y, mo, d, h, mi, s, ns, time.UTC)` as nanoseconds since
the Unix epoch. -/
def timeDate (y mo d h mi s ns : Int) : Int :=
  daysFromCivil y mo d * dayNs +
    h * 3600000000000 + mi * 60000000000 + s * 1000000000 + ns

/-- The Go zero `time.Time` (January 1, year 1, 00:00:00 UTC) in nanoseconds
since the Unix epoch. -/
def zeroTimeNs : Int := timeDate 1 1 1 0 0 0 0

/-- Model of `makeYear` from parser.go: two-digit years at or above 93 are in the
1900s, the rest in the 2000s. -/
def makeYear (twoDigitYear : Int) : Int :=
  if twoDigitYear ≥ 93 then 1900 + twoDigitYear else 2000 + twoDigitYear

/-! ## Record additions and their decoding -/

/-- Model of `RecordAddition` from igc.go: a three-letter code plus an inclusive
1-based column range on a data-record line. -/
structure RecordAddition where
  TLC : Line
  StartColumn : Int
  FinishColumn : Int
  deriving DecidableEq, Repr

/-- The slice `line[a.StartColumn-1 : a.FinishColumn]` taken by
`RecordAddition.bytesValue`. -/
def RecordAddition.slice (a : RecordAddition) (line : Line) : Line :=
  (line.drop (a.StartColumn - 1).toNat).take (a.FinishColumn - a.StartColumn + 1).toNat

/-- Model of `RecordAddition.bytesValue` from parser.go: if the line is shorter than
the finish column, report a missing-addition error; otherwise slice the
column range. -/
def RecordAddition.bytesValue (a : RecordAddition) (line : Line) (errs : List PErr) :
    Option Line × List PErr × Bool :=
  if (line.length : Int) < a.FinishColumn then
    (none, errs ++ [.missingAddition a.TLC a.StartColumn a.FinishColumn], false)
  else
    (some (a.slice line), errs, true)

/-- Model of `RecordAddition.intValue` from parser.go: slice the column range and
parse it as a signed integer, accumulating errors. -/
def RecordAddition.intValue (a : RecordAddition) (line : Line) (errs : List PErr) :
    Int × List PErr × Bool :=
  match a.bytesValue line errs with
  | (none, errs1, _) => (0, errs1, false)
  | (some data, errs1, _) =>
    match atoi data with
    | .error e => (0, errs1 ++ [e], false)
    | .ok v => (v, errs1, true)

/-! ## Association lists standing in for Go maps -/

/-- Insert-or-replace into an association list (Go map assignment). -/
def insertAssoc {α : Type} (m : List (Line × α)) (k : Line) (v : α) : List (Line × α) :=
  match m with
  | [] => [(k, v)]
  | (k1, v1) :: rest =>
    if k1 = k then (k, v) :: rest else (k1, v1) :: insertAssoc rest k v

/-- Lookup in an association list (Go map access). -/
def lookupAssoc {α : Type} (m : List (Line × α)) (k : Line) : Option α :=
  match m with
  | [] => none
  | (k1, v1) :: rest => if k1 = k then some v1 else lookupAssoc rest k

/-- Decode all additions of a data record against a raw line: each addition
contributes its parsed integer keyed by its code, or an error and no entry
(the shared loop body of `parseBRecord`, `parseKRecord` and `parseNRecord`). -/
def decodeAdditions (adds : List RecordAddition) (line : Line)
    (m : List (Line × Int)) (errs : List PErr) : List (Line × Int) × List PErr :=
  match adds with
  | [] => (m, errs)
  | a :: rest =>
    match a.intValue line errs with
    | (v, errs1, true) => decodeAdditions rest line (insertAssoc m a.TLC v) errs1
    | (_, errs1, false) => decodeAdditions rest line m errs1

/-! ## Records (igc.go) -/

/-- The closed record taxonomy of igc.go, one constructor per concrete record
type.  Latitude/longitude fields are kept as their exact integer components
(degrees, scaled minutes, negated flag) instead of the float64 quotient. -/
inductive Rec where
  | aRec (manufacturerID uniqueFlightRecorderID additionalData : Line)
  | bRec (time : Int) (latDeg latMin : Int) (latSouth : Bool)
      (lonDeg lonMin : Int) (lonWest : Bool) (validity : Char)
      (altBarometric altWGS84 : Int) (additions : List (Line × Int))
  | cRecDeclaration (declarationTime : Int)
      (flightDay flightMonth flightYear taskNumber numberOfTurnpoints : Int)
      (text : Line)
  | cRecWaypoint (latDeg latMin : Int) (latSouth : Bool)
      (lonDeg lonMin : Int) (lonWest : Bool) (text : Line)
  | dRec (gpsQualifier : Char) (dgpsStationID : Int)
  | eRec (time : Int) (tlc : Line) (text : Line)
  | eRecWithoutTLC (time : Int) (text : Line)
  | fRec (time : Int) (satelliteIDs : List Int)
  | gRec (text : Line)
  | hRec (source : Char) (tlc : Line) (longName : Line) (value : Line)
  | hRecWithInvalidSource (source : Char) (tlc : Line) (longName : Line) (value : Line)
  | hfdteRec (source : Char) (tlc : Line) (longName : Line) (value : Line)
      (date : Int) (flightNumber : Int)
  | iRec (additions : List RecordAddition)
  | jRec (additions : List RecordAddition)
  | kRec (time : Int) (additions : List (Line × Int))
  | lRec (input : Line) (text : Line)
  | lRecWithoutTLC (text : Line)
  | mRec (additions : List RecordAddition)
  | nRec (time : Int) (additions : List (Line × Int))
  deriving DecidableEq, Repr

/-- The `Valid()` method of the record types: false exactly for the three
lenient fallback variants, true for every other (non-nil) record. -/
def Rec.valid : Rec → Bool
  | .eRecWithoutTLC .. => false
  | .hRecWithInvalidSource .. => false
  | .lRecWithoutTLC .. => false
  | _ => true

/-- The `Time` field of the time-bearing record kinds (fix, event, satellite,
and the two periodic kinds), set by `parseTime`. -/
def Rec.time? : Rec → Option Int
  | .bRec t .. => some t
  | .eRec t .. => some t
  | .eRecWithoutTLC t .. => some t
  | .fRec t .. => some t
  | .kRec t .. => some t
  | .nRec t .. => some t
  | _ => none

/-! ## Shape matchers, one per anchored regular expression in parser.go -/

/-- Consume exactly `n` decimal digits (`\d{n}`). -/
def digitsGrp (n : Nat) (cs : Line) : Option (Line × Line) :=
  let g := cs.take n
  if g.length = n ∧ g.all Char.isDigit then some (g, cs.drop n) else none

/-- Consume one character satisfying `pred` (a character class). -/
def charGrp (pred : Char → Bool) : Line → Option (Char × Line)
  | c :: cs => if pred c then some (c, cs) else none
  | [] => none

/-- Consume exactly `n` characters satisfying `pred`. -/
def classGrp (pred : Char → Bool) (n : Nat) (cs : Line) : Option (Line × Line) :=
  let g := cs.take n
  if g.length = n ∧ g.all pred then some (g, cs.drop n) else none

/-- Groups of `bRecordRx`. -/
structure BMatch where
  (hh mm ss : Line)
  (latDeg latMin : Line)
  (ns : Char)
  (lonDeg lonMin : Line)
  (ew : Char)
  (av : Char)
  (altBarometric altWGS84 : Line)
  (rest : Line)
  deriving DecidableEq, Repr

/-- Model of `bRecordRx`: `\AB(\d{2})(\d{2})(\d{2})(\d{2})(\d{5})([NS])(\d{3})(\d{5})
([EW])([AV])([0-9\-]\d{4})([0-9\-]\d{4})(.*)\z`. -/
def matchBRecord : Line → Option BMatch
  | 'B' :: cs => do
    let (hh, cs) ← digitsGrp 2 cs
    let (mm, cs) ← digitsGrp 2 cs
    let (ss, cs) ← digitsGrp 2 cs
    let (latDeg, cs) ← digitsGrp 2 cs
    let (latMin, cs) ← digitsGrp 5 cs
    let (ns, cs) ← charGrp (fun c => c = 'N' ∨ c = 'S') cs
    let (lonDeg, cs) ← digitsGrp 3 cs
    let (lonMin, cs) ← digitsGrp 5 cs
    let (ew, cs) ← charGrp (fun c => c = 'E' ∨ c = 'W') cs
    let (av, cs) ← charGrp (fun c => c = 'A' ∨ c = 'V') cs
    let (b1, cs) ← charGrp (fun c => c.isDigit ∨ c = '-') cs
    let (b2, cs) ← digitsGrp 4 cs
    let (w1, cs) ← charGrp (fun c => c.isDigit ∨ c = '-') cs
    let (w2, cs) ← digitsGrp 4 cs
    some ⟨hh, mm, ss, latDeg, latMin, ns, lonDeg, lonMin, ew, av,
      b1 :: b2, w1 :: w2, cs⟩
  | _ => none

/-- Groups of `cRecordDeclarationRx`: nine `\d{2}` fields, `\d{4}`,
`[0-9\-]\d`, then the rest. -/
structure CDeclMatch where
  (dd mm yy hh mi ss fd fm fy : Line)
  (taskNumber : Line)
  (turnpoints : Line)
  (rest : Line)
  deriving DecidableEq, Repr

/-- Model of `cRecordDeclarationRx`: `\AC(\d{2}){9}(\d{4})([0-9\-]\d)(.*)\z`. -/
def matchCRecordDeclaration : Line → Option CDeclMatch
  | 'C' :: cs => do
    let (dd, cs) ← digitsGrp 2 cs
    let (mm, cs) ← digitsGrp 2 cs
    let (yy, cs) ← digitsGrp 2 cs
    let (hh, cs) ← digitsGrp 2 cs
    let (mi, cs) ← digitsGrp 2 cs
    let (ss, cs) ← digitsGrp 2 cs
    let (fd, cs) ← digitsGrp 2 cs
    let (fm, cs) ← digitsGrp 2 cs
    let (fy, cs) ← digitsGrp 2 cs
    let (tn, cs) ← digitsGrp 4 cs
    let (t1, cs) ← charGrp (fun c => c.isDigit ∨ c = '-') cs
    let (t2, cs) ← digitsGrp 1 cs
    some ⟨dd, mm, yy, hh, mi, ss, fd, fm, fy, tn, t1 :: t2, cs⟩
  | _ => none

/-- Groups of `cRecordWaypointRx`. -/
structure CWaypointMatch where
  (latDeg latMin : Line)
  (ns : Char)
  (lonDeg lonMin : Line)
  (ew : Char)
  (rest : Line)
  deriving DecidableEq, Repr

/-- Model of `cRecordWaypointRx`: `\AC(\d{2})(\d{5})([NS])(\d{3})(\d{5})([EW])(.*)\z`. -/
def matchCRecordWaypoint : Line → Option CWaypointMatch
  | 'C' :: cs => do
    let (latDeg, cs) ← digitsGrp 2 cs
    let (latMin, cs) ← digitsGrp 5 cs
    let (ns, cs) ← charGrp (fun c => c = 'N' ∨ c = 'S') cs
    let (lonDeg, cs) ← digitsGrp 3 cs
    let (lonMin, cs) ← digitsGrp 5 cs
    let (ew, cs) ← charGrp (fun c => c = 'E' ∨ c = 'W') cs
    some ⟨latDeg, latMin, ns, lonDeg, lonMin, ew, cs⟩
  | _ => none

/-- Model of `dRecordRx`: `\AD([12])(\d{4})\z`. -/
def matchDRecord : Line → Option (Char × Line)
  | 'D' :: cs => do
    let (q, cs) ← charGrp (fun c => c = '1' ∨ c = '2') cs
    let (sid, cs) ← digitsGrp 4 cs
    if cs.isEmpty then some (q, sid) else none
  | _ => none

/-- Model of `eRecordRx`: `\AE(\d{2})(\d{2})(\d{2})([A-Z]{3})(.*)\z`. -/
def matchERecord : Line → Option (Line × Line × Line × Line × Line)
  | 'E' :: cs => do
    let (hh, cs) ← digitsGrp 2 cs
    let (mm, cs) ← digitsGrp 2 cs
    let (ss, cs) ← digitsGrp 2 cs
    let (tlc, cs) ← classGrp Char.isUpper 3 cs
    some (hh, mm, ss, tlc, cs)
  | _ => none

/-- Model of `eRecordWithoutTLCRx`: `\AE(\d{2})(\d{2})(\d{2})(.*)\z`. -/
def matchERecordWithoutTLC : Line → Option (Line × Line × Line × Line)
  | 'E' :: cs => do
    let (hh, cs) ← digitsGrp 2 cs
    let (mm, cs) ← digitsGrp 2 cs
    let (ss, cs) ← digitsGrp 2 cs
    some (hh, mm, ss, cs)
  | _ => none

/-- Model of `fRecordRx`: `\AF(\d{2})(\d{2})(\d{2})((?:\d{2})*)\z`. -/
def matchFRecord : Line → Option (Line × Line × Line × Line)
  | 'F' :: cs => do
    let (hh, cs) ← digitsGrp 2 cs
    let (mm, cs) ← digitsGrp 2 cs
    let (ss, cs) ← digitsGrp 2 cs
    if cs.all Char.isDigit ∧ cs.length % 2 = 0 then some (hh, mm, ss, cs) else none
  | _ => none

/-- Model of `aRecordRx`: `\AA([A-Z]{3})(.*)\z`. -/
def matchARecord : Line → Option (Line × Line)
  | 'A' :: cs => do
    let (tlc, cs) ← classGrp Char.isUpper 3 cs
    some (tlc, cs)
  | _ => none

/-- Model of `gRecordRx`: `\AG(.*)\z`. -/
def matchGRecord : Line → Option Line
  | 'G' :: cs => some cs
  | _ => none

/-- Model of `lRecordRx`: `\AL([A-Z]{3})(.*)\z`. -/
def matchLRecord : Line → Option (Line × Line)
  | 'L' :: cs => do
    let (tlc, cs) ← classGrp Char.isUpper 3 cs
    some (tlc, cs)
  | _ => none

/-- Model of `lRecordWithoutTLCRx`: `\AL(.*)\z`. -/
def matchLRecordWithoutTLC : Line → Option Line
  | 'L' :: cs => some cs
  | _ => none

/-- Model of `knRecordRx`: `\A[KN](\d{2})(\d{2})(\d{2})(.*)\z`. -/
def matchKNRecord : Line → Option (Line × Line × Line × Line)
  | c :: cs =>
    if c = 'K' ∨ c = 'N' then do
      let (hh, cs) ← digitsGrp 2 cs
      let (mm, cs) ← digitsGrp 2 cs
      let (ss, cs) ← digitsGrp 2 cs
      some (hh, mm, ss, cs)
    else none
  | _ => none

/-- Whether a line is a run of `\d{4}[A-Z]{3}` groups, the body alternation
of `ijmRecordRx`. -/
def isIJMBody : Line → Bool
  | [] => true
  | c1 :: c2 :: c3 :: c4 :: c5 :: c6 :: c7 :: rest =>
    c1.isDigit && c2.isDigit && c3.isDigit && c4.isDigit &&
      c5.isUpper && c6.isUpper && c7.isUpper && isIJMBody rest
  | _ => false

/-- Model of `ijmRecordRx`: `\A[IJM](\d{2})((?:\d{4}[A-Z]{3})*)\z`, returning the
count digits and the body. -/
def matchIJMRecord : Line → Option (Line × Line)
  | c :: cs =>
    if c = 'I' ∨ c = 'J' ∨ c = 'M' then do
      let (n, cs) ← digitsGrp 2 cs
      if isIJMBody cs then some (n, cs) else none
    else none
  | _ => none

/-- Split at the first colon: the lazy group `(.*?)(?::(.*))?\z` of the two
H-record shapes binds the part before the first `:` and, when a colon is
present, the part after it. -/
def splitFirstColon : Line → Line × Option Line
  | [] => ([], none)
  | c :: rest =>
    if c = ':' then ([], some rest)
    else
      let p := splitFirstColon rest
      (c :: p.1, p.2)

/-- Model of `hRecordRx`: `\AH([FOP])([0-9A-Z]{3})(.*?)(?::(.*))?\z`. -/
def matchHRecord : Line → Option (Char × Line × Line × Option Line)
  | 'H' :: cs => do
    let (src, cs) ← charGrp (fun c => c = 'F' ∨ c = 'O' ∨ c = 'P') cs
    let (tlc, cs) ← classGrp (fun c => c.isDigit ∨ c.isUpper) 3 cs
    let p := splitFirstColon cs
    some (src, tlc, p.1, p.2)
  | _ => none

/-- Model of `hRecordWithInvalidSourceRx`: `\AH([A-Z])([0-9A-Z]{3})(.*?)(?::(.*))?\z`. -/
def matchHRecordWithInvalidSource : Line → Option (Char × Line × Line × Option Line)
  | 'H' :: cs => do
    let (src, cs) ← charGrp Char.isUpper cs
    let (tlc, cs) ← classGrp (fun c => c.isDigit ∨ c.isUpper) 3 cs
    let p := splitFirstColon cs
    some (src, tlc, p.1, p.2)
  | _ => none

/-- Model of `hfdteRecordRx`: `\AHFDTE(\d{2})(\d{2})(\d{2})\z`. -/
def matchHFDTERecord : Line → Option (Line × Line × Line)
  | 'H' :: 'F' :: 'D' :: 'T' :: 'E' :: cs => do
    let (dd, cs) ← digitsGrp 2 cs
    let (mm, cs) ← digitsGrp 2 cs
    let (yy, cs) ← digitsGrp 2 cs
    if cs.isEmpty then some (dd, mm, yy) else none
  | _ => none

/-- Model of `hffxaRecordRx`: `\AHFFXA(\d+)\z`. -/
def matchHFFXARecord : Line → Option Line
  | 'H' :: 'F' :: 'F' :: 'X' :: 'A' :: cs =>
    if cs.length ≠ 0 ∧ cs.all Char.isDigit then some cs else none
  | _ => none

/-- Model of `hfdteRecordValueRx` tried at one start position:
`(\d{2})(\d{2})(\d{2})(?:,(\d{2}))?\z`, with the optional flight-number
group preferred when it fits. -/
def matchHFDTEValueAt (cs : Line) : Option (Line × Line × Line × Option Line) := do
  let (d1, cs) ← digitsGrp 2 cs
  let (d2, cs) ← digitsGrp 2 cs
  let (d3, cs) ← digitsGrp 2 cs
  match cs with
  | [] => some (d1, d2, d3, none)
  | ',' :: cs1 => do
    let (fn, cs2) ← digitsGrp 2 cs1
    if cs2.isEmpty then some (d1, d2, d3, some fn) else none
  | _ => none

/-- Leftmost match of the unanchored `hfdteRecordValueRx` over a value
string (Go `FindSubmatch` tries start positions left to right). -/
def matchHFDTEValue : Line → Option (Line × Line × Line × Option Line)
  | [] => none
  | c :: rest =>
    match matchHFDTEValueAt (c :: rest) with
    | some m => some m
    | none => matchHFDTEValue rest

/-! ## Parser state (the `parser` struct) -/

/-- The mutable parser state of parser.go.  `date` is `none` while the Go
`time.Time` field is its zero value (no reachable flight date equals the
zero time, whose year is 1, so the encoding is exact);
`bRecordsAdditionsByTLC` is the accumulated code-to-addition map; the
`latMinDiv`/`lonMinDiv` float64 fields hold exactly the integers
`6e4 * 10^n`, kept here as integers. -/
structure ParserState where
  allowInvalidChars : Bool
  date : Option Int
  prevTime : Int
  cRecords : List Rec
  bRecordAdditions : List RecordAddition
  bRecordsAdditionsByTLC : List (Line × RecordAddition)
  ladBRecordAddition : Option RecordAddition
  latMinMul : Int
  latMinDiv : Int
  lodBRecordAddition : Option RecordAddition
  lonMinMul : Int
  lonMinDiv : Int
  tdsBRecordAddition : Option RecordAddition
  fracSecondMul : Int
  kRecordAdditions : List RecordAddition
  nRecordAdditions : List RecordAddition
  deriving DecidableEq, Repr

/-- Model of `newParser` from parser.go (before options are applied). -/
def initParser : ParserState where
  allowInvalidChars := false
  date := none
  prevTime := zeroTimeNs
  cRecords := []
  bRecordAdditions := []
  bRecordsAdditionsByTLC := []
  ladBRecordAddition := none
  latMinMul := 1
  latMinDiv := 60000
  lodBRecordAddition := none
  lonMinMul := 1
  lonMinDiv := 60000
  tdsBRecordAddition := none
  fracSecondMul := 1000000000
  kRecordAdditions := []
  nRecordAdditions := []

/-- Model of `intPow` from parser.go: binary exponentiation.  The Go version takes an
`int` exponent and fails to terminate when it is negative; the parser only
reaches it with non-negative exponents, which `Nat` captures. -/
def intPow (x : Int) (y : Nat) : Int :=
  if y = 0 then 1
  else (if y % 2 = 1 then x else 1) * intPow (x * x) (y / 2)
termination_by y
decreasing_by
  exact Nat.div_lt_self (Nat.pos_of_ne_zero (by assumption)) (by omega)

/-- The midnight-rollover loop of `parseTime`: advance the flight date one
day at a time until the candidate `date + durationSinceMidnight` is no
longer before the watermark, and return the advanced date. -/
def rolloverDate (prev dur date : Int) : Int :=
  if date + dur < prev then rolloverDate prev dur (date + dayNs) else date
termination_by (prev - (date + dur)).toNat
decreasing_by
  simp only [dayNs]
  omega

/-- The `durationSinceMidnight` computation of `parseTime`. -/
def durationSinceMidnight (hourData minuteData secondData : Line) (nanosecond : Int) : Int :=
  atoiV hourData * 3600000000000 + atoiV minuteData * 60000000000 +
    atoiV secondData * 1000000000 + nanosecond

/-- Model of `parseTime` from parser.go: with no flight date established, report
`errNoDate` and return the zero time without touching the watermark;
otherwise run the rollover loop, store the advanced date, emit the candidate
and raise the watermark to it. -/
def parseTime (p : ParserState) (hourData minuteData secondData : Line)
    (nanosecond : Int) (errs : List PErr) : Int × List PErr × ParserState :=
  match p.date with
  | none => (zeroTimeNs, errs ++ [.noDate], p)
  | some date =>
    let dur := durationSinceMidnight hourData minuteData secondData nanosecond
    let date1 := rolloverDate p.prevTime dur date
    let t := date1 + dur
    (t, errs, { p with date := some date1, prevTime := t })

/-! ## Record grammars -/

/-- The three-letter codes of `ApprovedManufacturersByTLC` (manufacturers.go). -/
def approvedManufacturerTLCs : List Line :=
  ["ACT", "AVX", "CAM", "CNI", "DSX", "EWA", "FIL", "FLA", "FLY", "GCS",
   "IMI", "LGS", "LXN", "LXV", "NAV", "NTE", "NKL", "PES", "PFE", "PRT",
   "RCE", "SCH", "SDI", "TRI", "ZAN"].map String.toList

/-- Model of `bytes.Cut(s, "-")`: the parts before and after the first hyphen (all of
`s` and the empty string when there is none). -/
def cutHyphen : Line → Line × Line
  | [] => ([], [])
  | c :: rest =>
    if c = '-' then ([], rest)
    else
      let q := cutHyphen rest
      (c :: q.1, q.2)

/-- Model of `parseARecord`: manufacturer code plus remainder; for approved
manufacturers the remainder splits on the first hyphen. -/
def parseARecord (p : ParserState) (line : Line) : Option Rec × List PErr × ParserState :=
  match matchARecord line with
  | none => (none, [.invalidRecord 'A'], p)
  | some (tlc, rest) =>
    if approvedManufacturerTLCs.contains tlc then
      let q := cutHyphen rest
      (some (.aRec tlc q.1 q.2), [], p)
    else
      (some (.aRec tlc rest []), [], p)

/-- Model of `parseBRecord`: fix record with timestamp, position, validity, altitudes
and declared additions. -/
def parseBRecord (p : ParserState) (line : Line) : Option Rec × List PErr × ParserState :=
  match matchBRecord line with
  | none => (none, [.invalidRecord 'B'], p)
  | some m =>
    let nsErrs : Int × List PErr :=
      match p.tdsBRecordAddition with
      | none => (0, [])
      | some tds =>
        match tds.intValue line [] with
        | (fs, errs, true) => (p.fracSecondMul * fs, errs)
        | (_, errs, false) => (0, errs)
    let tep := parseTime p m.hh m.mm m.ss nsErrs.1 nsErrs.2
    let p1 := tep.2.2
    let latDeg := atoiV m.latDeg
    let latMin0 := atoiV m.latMin
    let latRes : Int × List PErr :=
      match p1.ladBRecordAddition with
      | none => (latMin0, tep.2.1)
      | some lad =>
        match lad.intValue line tep.2.1 with
        | (v, errs, true) => (p1.latMinMul * latMin0 + v, errs)
        | (_, errs, false) => (latMin0, errs)
    let lonDeg := atoiV m.lonDeg
    let lonMin0 := atoiV m.lonMin
    let lonRes : Int × List PErr :=
      match p1.lodBRecordAddition with
      | none => (lonMin0, latRes.2)
      | some lod =>
        match lod.intValue line latRes.2 with
        | (v, errs, true) => (p1.lonMinMul * lonMin0 + v, errs)
        | (_, errs, false) => (lonMin0, errs)
    let altBarometric := atoiV m.altBarometric
    let altWGS84 := atoiV m.altWGS84
    let addRes : List (Line × Int) × List PErr :=
      if p1.bRecordAdditions.length > 0 then
        decodeAdditions p1.bRecordAdditions line [] lonRes.2
      else ([], lonRes.2)
    (some (.bRec tep.1 latDeg latRes.1 (m.ns = 'S') lonDeg lonRes.1 (m.ew = 'W')
      m.av altBarometric altWGS84 addRes.1), addRes.2, p1)

/-- Model of `parseCRecordDeclaration`: the task-declaration shape. -/
def parseCRecordDeclaration (line : Line) : Option Rec :=
  match matchCRecordDeclaration line with
  | none => none
  | some m =>
    let declarationTime := timeDate (makeYear (atoiV m.yy)) (atoiV m.mm) (atoiV m.dd)
      (atoiV m.hh) (atoiV m.mi) (atoiV m.ss) 0
    some (.cRecDeclaration declarationTime (atoiV m.fd) (atoiV m.fm) (atoiV m.fy)
      (atoiV m.taskNumber) (atoiV m.turnpoints) m.rest)

/-- Model of `parseCRecord`: while no C record has been accumulated in the parser
state, try the task-declaration shape first, then fall back to the waypoint
shape. -/
def parseCRecord (p : ParserState) (line : Line) : Option Rec × List PErr × ParserState :=
  let waypoint : Option Rec × List PErr × ParserState :=
    match matchCRecordWaypoint line with
    | none => (none, [.invalidRecord 'C'], p)
    | some m =>
      (some (.cRecWaypoint (atoiV m.latDeg) (atoiV m.latMin) (m.ns = 'S')
        (atoiV m.lonDeg) (atoiV m.lonMin) (m.ew = 'W') m.rest), [], p)
  if p.cRecords.length = 0 then
    match parseCRecordDeclaration line with
    | some r => (some r, [], p)
    | none => waypoint
  else waypoint

/-- Model of `parseDRecord`: GPS qualifier plus DGPS station id. -/
def parseDRecord (p : ParserState) (line : Line) : Option Rec × List PErr × ParserState :=
  match matchDRecord line with
  | none => (none, [.invalidRecord 'D'], p)
  | some (q, sid) => (some (.dRec q (atoiV sid)), [], p)

/-- Model of `parseERecord`: event record, falling back to the code-less variant when
the three-letter code is missing. -/
def parseERecord (p : ParserState) (line : Line) : Option Rec × List PErr × ParserState :=
  match matchERecord line with
  | some (hh, mm, ss, tlc, text) =>
    let tep := parseTime p hh mm ss 0 []
    (some (.eRec tep.1 tlc text), tep.2.1, tep.2.2)
  | none =>
    match matchERecordWithoutTLC line with
    | some (hh, mm, ss, text) =>
      let tep := parseTime p hh mm ss 0 []
      (some (.eRecWithoutTLC tep.1 text), tep.2.1, tep.2.2)
    | none => (none, [.invalidRecord 'E'], p)

/-- The satellite ids of an F record: consecutive two-digit numbers. -/
def satPairs : Line → List Int
  | c1 :: c2 :: rest => atoiV [c1, c2] :: satPairs rest
  | _ => []

/-- Model of `parseFRecord`: satellite-constellation record. -/
def parseFRecord (p : ParserState) (line : Line) : Option Rec × List PErr × ParserState :=
  match matchFRecord line with
  | none => (none, [.invalidRecord 'F'], p)
  | some (hh, mm, ss, ids) =>
    let tep := parseTime p hh mm ss 0 []
    (some (.fRec tep.1 (satPairs ids)), tep.2.1, tep.2.2)

/-- Model of `parseGRecord`: security record, freeform text. -/
def parseGRecord (p : ParserState) (line : Line) : Option Rec × List PErr × ParserState :=
  match matchGRecord line with
  | none => (none, [.invalidRecord 'G'], p)
  | some text => (some (.gRec text), [], p)

/-- Model of `parseHRecord`: header record, with the HFDTE and HFFXA legacy shapes
tried first, the DTE header special-cased into a date-header record, and an
invalid-source fallback. -/
def parseHRecord (p : ParserState) (line : Line) : Option Rec × List PErr × ParserState :=
  match matchHFDTERecord line with
  | some (dd, mm, yy) =>
    let date := timeDate (makeYear (atoiV yy)) (atoiV mm) (atoiV dd) 0 0 0 0
    (some (.hfdteRec 'F' "DTE".toList [] (dd ++ mm ++ yy) date 0), [], p)
  | none =>
    match matchHFFXARecord line with
    | some v => (some (.hRec 'F' "FXA".toList [] v), [], p)
    | none =>
      match matchHRecord line with
      | none =>
        match matchHRecordWithInvalidSource line with
        | some (src, tlc, longName, value?) =>
          (some (.hRecWithInvalidSource src tlc longName (value?.getD [])), [], p)
        | none => (none, [.invalidRecord 'H'], p)
      | some (src, tlc, longName, value?) =>
        let value := value?.getD []
        if tlc = "DTE".toList then
          match matchHFDTEValue value with
          | none => (some (.hRec src tlc longName value), [.invalidRecord 'H'], p)
          | some (d1, d2, d3, fn?) =>
            let date := timeDate (makeYear (atoiV d3)) (atoiV d2) (atoiV d1) 0 0 0 0
            let flightNumber := match fn? with | some fn => atoiV fn | none => 0
            (some (.hfdteRec src tlc longName value date flightNumber), [], p)
        else (some (.hRec src tlc longName value), [], p)

/-- The 7-character `(start, finish, code)` triples of an
addition-declaration body. -/
def additionTriples : Line → List (Line × Line × Line)
  | c1 :: c2 :: c3 :: c4 :: c5 :: c6 :: c7 :: rest =>
    ([c1, c2], [c3, c4], [c5, c6, c7]) :: additionTriples rest
  | _ => []

/-- The triple loop of `parseRecordAdditions`: accept a triple only when its
start column equals the expected cursor and its finish column is not below
its start column; the cursor advances only past accepted triples. -/
def additionsLoop (triples : List (Line × Line × Line)) (startColumn : Int)
    (adds : List RecordAddition) (errs : List PErr) :
    List RecordAddition × List PErr :=
  match triples with
  | [] => (adds, errs)
  | (s, f, tlc) :: rest =>
    let a : RecordAddition := ⟨tlc, atoiV s, atoiV f⟩
    if a.StartColumn ≠ startColumn then
      additionsLoop rest startColumn adds
        (errs ++ [.invalidAddition a.TLC a.StartColumn a.FinishColumn "invalid start column"])
    else if a.FinishColumn < a.StartColumn then
      additionsLoop rest startColumn adds
        (errs ++ [.invalidAddition a.TLC a.StartColumn a.FinishColumn "invalid finish column"])
    else
      additionsLoop rest (a.FinishColumn + 1) (adds ++ [a]) errs

/-- Model of `parseRecordAdditions`: match the I/J/M shape, check the declared count
against the body length, and run the triple loop; `none` is the structural
`invalidRecordError` case. -/
def parseRecordAdditions (line : Line) (startColumn : Int) :
    Option (List RecordAddition × List PErr) :=
  match matchIJMRecord line with
  | none => none
  | some (nStr, body) =>
    let n := atoiV nStr
    if (body.length : Int) ≠ 7 * n then none
    else some (additionsLoop (additionTriples body) startColumn [] [])

/-- Model of `parseIRecord`: fix-record addition declaration (initial cursor 36); any
rejected triple makes the whole record nil (`err != nil`). -/
def parseIRecord (p : ParserState) (line : Line) : Option Rec × List PErr × ParserState :=
  match parseRecordAdditions line 36 with
  | none => (none, [.invalidRecord 'I'], p)
  | some (adds, errs) =>
    if errs.isEmpty then (some (.iRec adds), [], p) else (none, errs, p)

/-- Model of `parseJRecord`: K-record addition declaration (initial cursor 8). -/
def parseJRecord (p : ParserState) (line : Line) : Option Rec × List PErr × ParserState :=
  match parseRecordAdditions line 8 with
  | none => (none, [.invalidRecord 'J'], p)
  | some (adds, errs) =>
    if errs.isEmpty then (some (.jRec adds), [], p) else (none, errs, p)

/-- Model of `parseMRecord`: N-record addition declaration (initial cursor 8). -/
def parseMRecord (p : ParserState) (line : Line) : Option Rec × List PErr × ParserState :=
  match parseRecordAdditions line 8 with
  | none => (none, [.invalidRecord 'M'], p)
  | some (adds, errs) =>
    if errs.isEmpty then (some (.mRec adds), [], p) else (none, errs, p)

/-- Model of `parseKRecord`: periodic record decoded via the installed K additions. -/
def parseKRecord (p : ParserState) (line : Line) : Option Rec × List PErr × ParserState :=
  match matchKNRecord line with
  | none => (none, [.invalidRecord 'K'], p)
  | some (hh, mm, ss, _) =>
    let tep := parseTime p hh mm ss 0 []
    let p1 := tep.2.2
    let addRes : List (Line × Int) × List PErr :=
      if p1.kRecordAdditions.length > 0 then
        decodeAdditions p1.kRecordAdditions line [] tep.2.1
      else ([], tep.2.1)
    (some (.kRec tep.1 addRes.1), addRes.2, p1)

/-- Model of `parseNRecord`: periodic record decoded via the installed N additions. -/
def parseNRecord (p : ParserState) (line : Line) : Option Rec × List PErr × ParserState :=
  match matchKNRecord line with
  | none => (none, [.invalidRecord 'N'], p)
  | some (hh, mm, ss, _) =>
    let tep := parseTime p hh mm ss 0 []
    let p1 := tep.2.2
    let addRes : List (Line × Int) × List PErr :=
      if p1.nRecordAdditions.length > 0 then
        decodeAdditions p1.nRecordAdditions line [] tep.2.1
      else ([], tep.2.1)
    (some (.nRec tep.1 addRes.1), addRes.2, p1)

/-- Model of `parseLRecord`: log message, falling back to the tag-less variant. -/
def parseLRecord (p : ParserState) (line : Line) : Option Rec × List PErr × ParserState :=
  match matchLRecord line with
  | some (tlc, text) => (some (.lRec tlc text), [], p)
  | none =>
    match matchLRecordWithoutTLC line with
    | some text => (some (.lRecWithoutTLC text), [], p)
    | none => (none, [.invalidRecord 'L'], p)

/-! ## Dispatch and the per-parse loop -/

/-- The record-type dispatch switch of `parseLines` on the line's first
character. -/
def dispatchLine (p : ParserState) (line : Line) : Option Rec × List PErr × ParserState :=
  match line with
  | [] => (none, [], p)
  | c :: _ =>
    if c = 'A' then parseARecord p line
    else if c = 'B' then parseBRecord p line
    else if c = 'C' then parseCRecord p line
    else if c = 'D' then parseDRecord p line
    else if c = 'E' then parseERecord p line
    else if c = 'F' then parseFRecord p line
    else if c = 'G' then parseGRecord p line
    else if c = 'H' then parseHRecord p line
    else if c = 'I' then parseIRecord p line
    else if c = 'J' then parseJRecord p line
    else if c = 'K' then parseKRecord p line
    else if c = 'L' then parseLRecord p line
    else if c = 'M' then parseMRecord p line
    else if c = 'N' then parseNRecord p line
    else (none, [.unknownRecordType c], p)

/-- The reserved-character allowlist of `invalidCharsRx`
(`[^\x20\x22-\x23\x25-\x29\x2b-\x5b\x5d\x5f-\x7d]` matches the complement). -/
def allowedChar (c : Char) : Bool :=
  let n := c.toNat
  n = 0x20 ∨ (0x22 ≤ n ∧ n ≤ 0x23) ∨ (0x25 ≤ n ∧ n ≤ 0x29) ∨
    (0x2B ≤ n ∧ n ≤ 0x5B) ∨ n = 0x5D ∨ (0x5F ≤ n ∧ n ≤ 0x7D)

/-- One non-empty line of the `parseLines` loop before accumulation:
dispatch, then (unless disabled) append an invalid-character error for the
first disallowed character. -/
def parseLine (p : ParserState) (line : Line) : Option Rec × List PErr × ParserState :=
  let dres := dispatchLine p line
  let errs :=
    if !p.allowInvalidChars then
      match line.find? (fun c => !allowedChar c) with
      | some c => dres.2.1 ++ [.invalidChar c]
      | none => dres.2.1
    else dres.2.1
  (dres.1, errs, dres.2.2)

/-- A line-tagged composite error (`Error` in igc.go, with the joined error
kept as the list of its causes in order). -/
structure LineErr where
  line : Nat
  errs : List PErr
  deriving DecidableEq, Repr

/-- The `IGC` document under construction: ordered record list, typed
sub-lists, header index and error list. -/
structure ParseAcc where
  records : List (Option Rec)
  bRecords : List Rec
  hRecordsByTLC : List (Line × Rec)
  kRecords : List Rec
  errs : List LineErr
  deriving DecidableEq, Repr

/-- The empty document. -/
def emptyAcc : ParseAcc := ⟨[], [], [], [], []⟩

/-- The I-record case of the `parseLines` record switch: append the new
additions to the fix-record table, merge them into the by-code map, and
recompute the LAD/LOD/TDS scale factors from that map.  (Go's `intPow` is
called with exponent `9 - n`, an `int`; it does not terminate for negative
exponents, so `Int.toNat` extends the model over widths above 9 where the
source has no defined behaviour.) -/
def applyIRecord (p : ParserState) (adds : List RecordAddition) : ParserState :=
  let p1 := { p with
    bRecordAdditions := p.bRecordAdditions ++ adds,
    bRecordsAdditionsByTLC :=
      adds.foldl (fun m a => insertAssoc m a.TLC a) p.bRecordsAdditionsByTLC }
  let p2 :=
    match lookupAssoc p1.bRecordsAdditionsByTLC "LAD".toList with
    | some lad =>
      let n := lad.FinishColumn - lad.StartColumn + 1
      { p1 with
        ladBRecordAddition := some lad
        latMinMul := intPow 10 n.toNat
        latMinDiv := 60000 * intPow 10 n.toNat }
    | none => p1
  let p3 :=
    match lookupAssoc p1.bRecordsAdditionsByTLC "LOD".toList with
    | some lod =>
      let n := lod.FinishColumn - lod.StartColumn + 1
      { p2 with
        lodBRecordAddition := some lod
        lonMinMul := intPow 10 n.toNat
        lonMinDiv := 60000 * intPow 10 n.toNat }
    | none => p2
  match lookupAssoc p1.bRecordsAdditionsByTLC "TDS".toList with
  | some tds =>
    let n := tds.FinishColumn - tds.StartColumn + 1
    { p3 with tdsBRecordAddition := some tds, fracSecondMul := intPow 10 (9 - n).toNat }
  | none => p3

/-- The record switch at the end of each `parseLines` iteration: collect
typed records and update the parser state from successful date-header and
addition-declaration records. -/
def applyRecord (p : ParserState) (acc : ParseAcc) : Option Rec → ParserState × ParseAcc
  | some r =>
    match r with
    | .bRec .. => (p, { acc with bRecords := acc.bRecords ++ [r] })
    | .hRec _ tlc _ _ => (p, { acc with hRecordsByTLC := insertAssoc acc.hRecordsByTLC tlc r })
    | .hfdteRec src tlc longName value date _ =>
      ({ p with date := some date },
       { acc with hRecordsByTLC := insertAssoc acc.hRecordsByTLC tlc (.hRec src tlc longName value) })
    | .iRec adds => (applyIRecord p adds, acc)
    | .jRec adds => ({ p with kRecordAdditions := adds }, acc)
    | .kRec .. => (p, { acc with kRecords := acc.kRecords ++ [r] })
    | .mRec adds => ({ p with nRecordAdditions := adds }, acc)
    | _ => (p, acc)
  | none => (p, acc)

/-- The `parseLines` loop: skip empty lines, parse each other line into a
record slot and an optional line-tagged error, and update the parser state. -/
def parseLinesLoop (p : ParserState) (acc : ParseAcc) (i : Nat) :
    List Line → ParseAcc
  | [] => acc
  | line :: rest =>
    if line.length = 0 then parseLinesLoop p acc (i + 1) rest
    else
      let lres := parseLine p line
      let acc1 := { acc with
        records := acc.records ++ [lres.1],
        errs := if lres.2.1.isEmpty then acc.errs else acc.errs ++ [⟨i + 1, lres.2.1⟩] }
      let pa := applyRecord lres.2.2 acc1 lres.1
      parseLinesLoop pa.1 pa.2 (i + 1) rest

/-- Model of `ParseLines` with the `WithAllowInvalidChars` option. -/
def parseLinesWith (allow : Bool) (lines : List Line) : ParseAcc :=
  parseLinesLoop { initParser with allowInvalidChars := allow } emptyAcc 0 lines

/-- Model of `ParseLines` with no options. -/
def parseLines (lines : List Line) : ParseAcc :=
  parseLinesWith false lines

/-! ## Error message rendering needed by the claims -/

/-- Go `unicode.IsPrint` restricted to the Latin-1 code points a byte-to-rune
conversion can produce: the ASCII graphic range plus space, and the upper
Latin-1 block minus the no-break space and the soft hyphen. -/
def goIsPrint (c : Char) : Bool :=
  let n := c.toNat
  (0x20 ≤ n ∧ n ≤ 0x7E) ∨ (0xA1 ≤ n ∧ n ≤ 0xFF ∧ n ≠ 0xAD)

/-- An uppercase hexadecimal digit. -/
def hexDigitChar (n : Nat) : Char :=
  if n < 10 then Char.ofNat ('0'.toNat + n) else Char.ofNat ('A'.toNat + n - 10)

/-- Model of `unknownRecordTypeError.Error()`: the literal character when printable,
otherwise a quoted `\xHH` escape. -/
def unknownRecordTypeMessage (c : Char) : String :=
  if goIsPrint c then String.mk [c] ++ ": unknown record type"
  else
    String.mk ['"', '\\', 'x', hexDigitChar (c.toNat / 16 % 16), hexDigitChar (c.toNat % 16), '"']
      ++ ": unknown record type"

/-! ## Basic lemmas -/

theorem intPow_eq_pow (x : Int) (y : Nat) : intPow x y = x ^ y := by
  induction y using Nat.strong_induction_on generalizing x with
  | _ y ih =>
    by_cases h0 : y = 0
    · rw [intPow, if_pos h0, h0]
      simp
    · rw [intPow, if_neg h0]
      have hlt : y / 2 < y := Nat.div_lt_self (Nat.pos_of_ne_zero h0) (by omega)
      rw [ih (y / 2) hlt (x * x)]
      have hxx : (x * x) ^ (y / 2) = x ^ (2 * (y / 2)) := by
        rw [pow_mul]
        ring_nf
      rcases Nat.even_or_odd y with he | ho
      · have h2 : y % 2 = 0 := Nat.even_iff.mp he
        have hy : 2 * (y / 2) = y := by omega
        rw [if_neg (by omega), hxx, hy, one_mul]
      · have h2 : y % 2 = 1 := Nat.odd_iff.mp ho
        have hy : 2 * (y / 2) + 1 = y := by omega
        rw [if_pos h2, hxx, ← congrArg (fun n => x ^ n) hy, pow_succ]
        ring

theorem rolloverDate_spec (prev dur date : Int) :
    ∃ k : Nat, rolloverDate prev dur date = date + (k : Int) * dayNs ∧
      ¬(date + (k : Int) * dayNs + dur < prev) ∧
      ∀ j : Nat, j < k → date + (j : Int) * dayNs + dur < prev := by
  induction date using rolloverDate.induct prev dur with
  | case1 date h ih =>
    obtain ⟨k, hk, hge, hmin⟩ := ih
    refine ⟨k + 1, ?_, ?_, ?_⟩
    · rw [rolloverDate, if_pos h, hk]
      push_cast
      ring
    · push_cast
      have hd : ((k : Int) + 1) * dayNs = (k : Int) * dayNs + dayNs := by ring
      omega
    · intro j hj
      match j with
      | 0 => simpa using h
      | j + 1 =>
        have hj1 := hmin j (by omega)
        push_cast
        have hd : ((j : Int) + 1) * dayNs = (j : Int) * dayNs + dayNs := by ring
        omega
  | case2 date h =>
    refine ⟨0, ?_, ?_, ?_⟩
    · rw [rolloverDate, if_neg h]
      simp
    · simpa using h
    · omega

theorem rolloverDate_ge (prev dur date : Int) :
    prev ≤ rolloverDate prev dur date + dur := by
  obtain ⟨k, hk, hge, -⟩ := rolloverDate_spec prev dur date
  omega

theorem parseTime_none (p : ParserState) (hh mm ss : Line) (ns : Int) (errs : List PErr)
    (h : p.date = none) :
    parseTime p hh mm ss ns errs = (zeroTimeNs, errs ++ [.noDate], p) := by
  simp [parseTime, h]

theorem parseTime_some (p : ParserState) (hh mm ss : Line) (ns : Int) (errs : List PErr)
    (d : Int) (h : p.date = some d) :
    parseTime p hh mm ss ns errs =
      (rolloverDate p.prevTime (durationSinceMidnight hh mm ss ns) d +
         durationSinceMidnight hh mm ss ns, errs,
       { p with
         date := some (rolloverDate p.prevTime (durationSinceMidnight hh mm ss ns) d)
         prevTime := rolloverDate p.prevTime (durationSinceMidnight hh mm ss ns) d +
           durationSinceMidnight hh mm ss ns }) := by
  simp [parseTime, h]

/-! ## The step relation used by the monotonicity invariant -/

/-- What one record grammar may do to the watermark: if no time-bearing
record is produced the watermark and date are untouched; if one is produced
its timestamp is at or above the old watermark and becomes the new one,
except that before any date is established the timestamp is the zero time
and the state is untouched. -/
def StepOK (p : ParserState) (res : Option Rec × List PErr × ParserState) : Prop :=
  (res.1.bind Rec.time? = none → res.2.2.prevTime = p.prevTime ∧ res.2.2.date = p.date) ∧
  (∀ t, res.1.bind Rec.time? = some t →
    (p.prevTime ≤ t ∧ res.2.2.prevTime = t ∧ res.2.2.date ≠ none) ∨
    (p.date = none ∧ t = zeroTimeNs ∧ res.2.2 = p))

theorem stepOK_no_time (p : ParserState) (r? : Option Rec) (errs : List PErr)
    (h : r?.bind Rec.time? = none) : StepOK p (r?, errs, p) := by
  unfold StepOK
  refine ⟨fun _ => ⟨rfl, rfl⟩, fun t ht => ?_⟩
  rw [h] at ht
  cases ht

theorem stepOK_time (p : ParserState) (hh mm ss : Line) (ns : Int)
    (errs0 errs1 : List PErr) (r? : Option Rec)
    (h : r?.bind Rec.time? = some (parseTime p hh mm ss ns errs0).1) :
    StepOK p (r?, errs1, (parseTime p hh mm ss ns errs0).2.2) := by
  unfold StepOK
  constructor
  · intro hnone
    rw [h] at hnone
    cases hnone
  · intro t ht
    rw [h] at ht
    injection ht with ht
    subst ht
    cases hd : p.date with
    | none =>
      right
      rw [parseTime_none p _ _ _ _ _ hd]
      exact ⟨rfl, rfl, rfl⟩
    | some d =>
      left
      rw [parseTime_some p _ _ _ _ _ d hd]
      refine ⟨rolloverDate_ge _ _ _, rfl, ?_⟩
      simp

theorem stepOK_parseA (p : ParserState) (line : Line) : StepOK p (parseARecord p line) := by
  unfold parseARecord
  repeat' split
  all_goals refine stepOK_no_time p _ _ ?_
  all_goals rfl

theorem stepOK_parseB (p : ParserState) (line : Line) : StepOK p (parseBRecord p line) := by
  unfold parseBRecord
  split
  · refine stepOK_no_time p _ _ ?_
    rfl
  · refine stepOK_time p _ _ _ _ _ _ _ ?_
    rfl

theorem parseCRecordDeclaration_time (line : Line) (r : Rec)
    (h : parseCRecordDeclaration line = some r) : r.time? = none := by
  unfold parseCRecordDeclaration at h
  split at h
  · cases h
  · cases h
    rfl

theorem stepOK_parseC (p : ParserState) (line : Line) : StepOK p (parseCRecord p line) := by
  unfold parseCRecord
  repeat' split
  all_goals refine stepOK_no_time p _ _ ?_
  all_goals first
    | rfl
    | (rename_i r hr
       simp only [Option.some_bind]
       exact parseCRecordDeclaration_time _ _ hr)

theorem stepOK_parseD (p : ParserState) (line : Line) : StepOK p (parseDRecord p line) := by
  unfold parseDRecord
  repeat' split
  all_goals refine stepOK_no_time p _ _ ?_
  all_goals rfl

theorem stepOK_parseE (p : ParserState) (line : Line) : StepOK p (parseERecord p line) := by
  unfold parseERecord
  repeat' split
  · refine stepOK_time p _ _ _ _ _ _ _ ?_
    rfl
  · refine stepOK_time p _ _ _ _ _ _ _ ?_
    rfl
  · refine stepOK_no_time p _ _ ?_
    rfl

theorem stepOK_parseF (p : ParserState) (line : Line) : StepOK p (parseFRecord p line) := by
  unfold parseFRecord
  split
  · refine stepOK_no_time p _ _ ?_
    rfl
  · refine stepOK_time p _ _ _ _ _ _ _ ?_
    rfl

theorem stepOK_parseG (p : ParserState) (line : Line) : StepOK p (parseGRecord p line) := by
  unfold parseGRecord
  repeat' split
  all_goals refine stepOK_no_time p _ _ ?_
  all_goals rfl

theorem stepOK_parseH (p : ParserState) (line : Line) : StepOK p (parseHRecord p line) := by
  unfold parseHRecord
  dsimp only
  repeat' split
  all_goals refine stepOK_no_time p _ _ ?_
  all_goals rfl

theorem stepOK_parseI (p : ParserState) (line : Line) : StepOK p (parseIRecord p line) := by
  unfold parseIRecord
  repeat' split
  all_goals refine stepOK_no_time p _ _ ?_
  all_goals rfl

theorem stepOK_parseJ (p : ParserState) (line : Line) : StepOK p (parseJRecord p line) := by
  unfold parseJRecord
  repeat' split
  all_goals refine stepOK_no_time p _ _ ?_
  all_goals rfl

theorem stepOK_parseK (p : ParserState) (line : Line) : StepOK p (parseKRecord p line) := by
  unfold parseKRecord
  split
  · refine stepOK_no_time p _ _ ?_
    rfl
  · refine stepOK_time p _ _ _ _ _ _ _ ?_
    rfl

theorem stepOK_parseL (p : ParserState) (line : Line) : StepOK p (parseLRecord p line) := by
  unfold parseLRecord
  repeat' split
  all_goals refine stepOK_no_time p _ _ ?_
  all_goals rfl

theorem stepOK_parseM (p : ParserState) (line : Line) : StepOK p (parseMRecord p line) := by
  unfold parseMRecord
  repeat' split
  all_goals refine stepOK_no_time p _ _ ?_
  all_goals rfl

theorem stepOK_parseN (p : ParserState) (line : Line) : StepOK p (parseNRecord p line) := by
  unfold parseNRecord
  split
  · refine stepOK_no_time p _ _ ?_
    rfl
  · refine stepOK_time p _ _ _ _ _ _ _ ?_
    rfl

theorem stepOK_dispatchLine (p : ParserState) (line : Line) :
    StepOK p (dispatchLine p line) := by
  unfold dispatchLine
  split
  · exact stepOK_no_time p none _ rfl
  · rename_i c rest
    by_cases hA : c = 'A'
    · rw [if_pos hA]
      exact stepOK_parseA p _
    · rw [if_neg hA]
      by_cases hB : c = 'B'
      · rw [if_pos hB]
        exact stepOK_parseB p _
      · rw [if_neg hB]
        by_cases hC : c = 'C'
        · rw [if_pos hC]
          exact stepOK_parseC p _
        · rw [if_neg hC]
          by_cases hD : c = 'D'
          · rw [if_pos hD]
            exact stepOK_parseD p _
          · rw [if_neg hD]
            by_cases hE : c = 'E'
            · rw [if_pos hE]
              exact stepOK_parseE p _
            · rw [if_neg hE]
              by_cases hF : c = 'F'
              · rw [if_pos hF]
                exact stepOK_parseF p _
              · rw [if_neg hF]
                by_cases hG : c = 'G'
                · rw [if_pos hG]
                  exact stepOK_parseG p _
                · rw [if_neg hG]
                  by_cases hH : c = 'H'
                  · rw [if_pos hH]
                    exact stepOK_parseH p _
                  · rw [if_neg hH]
                    by_cases hI : c = 'I'
                    · rw [if_pos hI]
                      exact stepOK_parseI p _
                    · rw [if_neg hI]
                      by_cases hJ : c = 'J'
                      · rw [if_pos hJ]
                        exact stepOK_parseJ p _
                      · rw [if_neg hJ]
                        by_cases hK : c = 'K'
                        · rw [if_pos hK]
                          exact stepOK_parseK p _
                        · rw [if_neg hK]
                          by_cases hL : c = 'L'
                          · rw [if_pos hL]
                            exact stepOK_parseL p _
                          · rw [if_neg hL]
                            by_cases hM : c = 'M'
                            · rw [if_pos hM]
                              exact stepOK_parseM p _
                            · rw [if_neg hM]
                              by_cases hN : c = 'N'
                              · rw [if_pos hN]
                                exact stepOK_parseN p _
                              · rw [if_neg hN]
                                exact stepOK_no_time p none _ rfl

theorem stepOK_parseLine (p : ParserState) (line : Line) :
    StepOK p (parseLine p line) := by
  have h := stepOK_dispatchLine p line
  unfold StepOK at h ⊢
  unfold parseLine
  exact h

/-! ## The watermark invariant carried through the parse loop -/

theorem applyIRecord_state (p : ParserState) (adds : List RecordAddition) :
    (applyIRecord p adds).prevTime = p.prevTime ∧ (applyIRecord p adds).date = p.date := by
  unfold applyIRecord
  dsimp only
  repeat' split
  all_goals simp

theorem applyRecord_state (p : ParserState) (acc : ParseAcc) (r? : Option Rec) :
    (applyRecord p acc r?).1.prevTime = p.prevTime ∧
    ((applyRecord p acc r?).1.date = none → p.date = none) ∧
    (applyRecord p acc r?).2.records = acc.records ∧
    (applyRecord p acc r?).2.errs = acc.errs := by
  cases r? with
  | none => exact ⟨rfl, fun h => h, rfl, rfl⟩
  | some r =>
    cases r with
    | iRec adds =>
      have h := applyIRecord_state p adds
      exact ⟨h.1, fun hd => h.2 ▸ hd, rfl, rfl⟩
    | hfdteRec src tlc longName value date fn =>
      refine ⟨rfl, fun hd => ?_, rfl, rfl⟩
      simp [applyRecord] at hd
    | _ => exact ⟨rfl, fun h => h, rfl, rfl⟩

/-- The timestamps of the time-bearing records among a document's slots, in
line order. -/
def docTimes (rs : List (Option Rec)) : List Int :=
  rs.filterMap (fun r => r.bind Rec.time?)

/-- The invariant carried line-to-line: emitted timestamps are sorted, all
bounded by the watermark, and the watermark is still the zero time while no
date is established. -/
def timeInv (p : ParserState) (ts : List Int) : Prop :=
  ts.Chain' (· ≤ ·) ∧ (∀ t ∈ ts, t ≤ p.prevTime) ∧ (p.date = none → p.prevTime = zeroTimeNs)

theorem docTimes_append (rs : List (Option Rec)) (r : Option Rec) :
    docTimes (rs ++ [r]) = docTimes rs ++ (r.bind Rec.time?).toList := by
  unfold docTimes
  rw [List.filterMap_append]
  cases h : r.bind Rec.time? <;> simp [h]

theorem chain_le_append (ts : List Int) (t : Int) (hc : ts.Chain' (· ≤ ·))
    (hle : ∀ x ∈ ts, x ≤ t) : (ts ++ [t]).Chain' (· ≤ ·) := by
  rw [List.chain'_append]
  refine ⟨hc, List.chain'_singleton t, ?_⟩
  intro x hx y hy
  simp at hy
  subst hy
  exact hle x (List.mem_of_mem_getLast? hx)

theorem parseLinesLoop_chain (lines : List Line) :
    ∀ (p : ParserState) (acc : ParseAcc) (i : Nat),
      timeInv p (docTimes acc.records) →
      (docTimes (parseLinesLoop p acc i lines).records).Chain' (· ≤ ·) := by
  induction lines with
  | nil =>
    intro p acc i hinv
    exact hinv.1
  | cons line rest ih =>
    intro p acc i hinv
    unfold parseLinesLoop
    by_cases hempty : line.length = 0
    · rw [if_pos hempty]
      exact ih p acc (i + 1) hinv
    · rw [if_neg hempty]
      obtain ⟨hchain, hbound, hdate⟩ := hinv
      have hstep := stepOK_parseLine p line
      obtain ⟨hs1, hs2⟩ := hstep
      set lres := parseLine p line with hlres
      have happ := applyRecord_state lres.2.2 { acc with
        records := acc.records ++ [lres.1],
        errs := if lres.2.1.isEmpty then acc.errs else acc.errs ++ [⟨i + 1, lres.2.1⟩] } lres.1
      apply ih
      refine ⟨?_, ?_, ?_⟩
      · rw [happ.2.2.1, docTimes_append]
        cases ht : lres.1.bind Rec.time? with
        | none => simpa using hchain
        | some t =>
          simp only [Option.toList_some]
          rcases hs2 t ht with ⟨hle, hprev, hdne⟩ | ⟨hdn, htz, heq⟩
          · exact chain_le_append _ _ hchain fun x hx => le_trans (hbound x hx) hle
          · subst htz
            exact chain_le_append _ _ hchain fun x hx => by
              rw [← hdate hdn]
              exact hbound x hx
      · rw [happ.2.2.1, docTimes_append]
        intro t htmem
        cases ht : lres.1.bind Rec.time? with
        | none =>
          rw [ht] at htmem
          simp at htmem
          rw [happ.1, (hs1 ht).1]
          exact hbound t htmem
        | some t1 =>
          rw [ht] at htmem
          simp at htmem
          rcases hs2 t1 ht with ⟨hle, hprev, hdne⟩ | ⟨hdn, htz, heq⟩
          · rw [happ.1, hprev]
            rcases htmem with hmem | heqt
            · exact le_trans (hbound t hmem) hle
            · exact le_of_eq heqt
          · rw [happ.1, heq]
            rcases htmem with hmem | heqt
            · exact hbound t hmem
            · rw [heqt, htz, hdate hdn]
      · intro hdn2
        have hd1 : lres.2.2.date = none := happ.2.1 hdn2
        cases ht : lres.1.bind Rec.time? with
        | none =>
          rw [happ.1, (hs1 ht).1]
          apply hdate
          rw [← (hs1 ht).2]
          exact hd1
        | some t1 =>
          rcases hs2 t1 ht with ⟨hle, hprev, hdne⟩ | ⟨hdn, htz, heq⟩
          · exact absurd hd1 hdne
          · rw [happ.1, heq]
            exact hdate hdn

theorem parseLinesLoop_records_length (lines : List Line) :
    ∀ (p : ParserState) (acc : ParseAcc) (i : Nat),
      (parseLinesLoop p acc i lines).records.length =
        acc.records.length + (lines.filter (fun l => l.length != 0)).length := by
  induction lines with
  | nil =>
    intro p acc i
    simp [parseLinesLoop]
  | cons line rest ih =>
    intro p acc i
    unfold parseLinesLoop
    by_cases hempty : line.length = 0
    · rw [if_pos hempty, ih]
      have hcond : (line.length != 0) = false := by simpa using hempty
      rw [List.filter_cons, hcond]
      simp
    · rw [if_neg hempty]
      have happ := applyRecord_state (parseLine p line).2.2 { acc with
        records := acc.records ++ [(parseLine p line).1],
        errs := if (parseLine p line).2.1.isEmpty then acc.errs
          else acc.errs ++ [⟨i + 1, (parseLine p line).2.1⟩] } (parseLine p line).1
      rw [ih, happ.2.2.1]
      have hcond : (line.length != 0) = true := by simpa using hempty
      rw [List.filter_cons, hcond]
      simp
      omega

theorem parseLinesLoop_errs (lines : List Line) :
    ∀ (p : ParserState) (acc : ParseAcc) (i : Nat) (e : LineErr),
      e ∈ (parseLinesLoop p acc i lines).errs →
      e ∈ acc.errs ∨ ∃ j l, lines[j]? = some l ∧ l.length ≠ 0 ∧ e.line = i + j + 1 := by
  induction lines with
  | nil =>
    intro p acc i e he
    left
    simpa [parseLinesLoop] using he
  | cons line rest ih =>
    intro p acc i e he
    unfold parseLinesLoop at he
    by_cases hempty : line.length = 0
    · rw [if_pos hempty] at he
      rcases ih p acc (i + 1) e he with hmem | ⟨j, l, hj, hl, hline⟩
      · exact Or.inl hmem
      · exact Or.inr ⟨j + 1, l, by simpa using hj, hl, by omega⟩
    · rw [if_neg hempty] at he
      have happ := applyRecord_state (parseLine p line).2.2 { acc with
        records := acc.records ++ [(parseLine p line).1],
        errs := if (parseLine p line).2.1.isEmpty then acc.errs
          else acc.errs ++ [⟨i + 1, (parseLine p line).2.1⟩] } (parseLine p line).1
      rcases ih _ _ (i + 1) e he with hmem | ⟨j, l, hj, hl, hline⟩
      · rw [happ.2.2.2] at hmem
        by_cases hne : (parseLine p line).2.1.isEmpty
        · rw [if_pos hne] at hmem
          exact Or.inl hmem
        · rw [if_neg hne] at hmem
          rcases List.mem_append.mp hmem with hmem1 | hmem2
          · exact Or.inl hmem1
          · right
            refine ⟨0, line, by simp, hempty, ?_⟩
            simp at hmem2
            simp [hmem2]
      · exact Or.inr ⟨j + 1, l, by simpa using hj, hl, by omega⟩

/-- The record-type letters the dispatcher recognizes. -/
def recognizedRecordType (c : Char) : Bool :=
  (['A', 'B', 'C', 'D', 'E', 'F', 'G', 'H', 'I', 'J', 'K', 'L', 'M', 'N'] : List Char).contains c

theorem dispatchLine_unknown (p : ParserState) (c : Char) (cs : Line)
    (h : recognizedRecordType c = false) :
    dispatchLine p (c :: cs) = (none, [.unknownRecordType c], p) := by
  have hmem : c ∉ (['A', 'B', 'C', 'D', 'E', 'F', 'G', 'H', 'I', 'J', 'K', 'L', 'M', 'N'] : List Char) := by
    simpa [recognizedRecordType] using h
  simp only [List.mem_cons, List.not_mem_nil, or_false, not_or] at hmem
  obtain ⟨hA, hB, hC, hD, hE, hF, hG, hH, hI, hJ, hK, hL, hM, hN⟩ := hmem
  simp [dispatchLine, hA, hB, hC, hD, hE, hF, hG, hH, hI, hJ, hK, hL, hM, hN]

/-! ## Claim theorems -/

/-- C1: in every parse, the timestamps assigned to the time-bearing records
(fix, event, satellite and the two periodic kinds), taken in line order,
never decrease: each candidate is the current date plus the time of day,
advanced by whole days until not earlier than the watermark, which is then
raised to it, and a date-header record overwrites the date without resetting
the watermark, so monotonicity holds across explicit date changes too. -/
theorem C1_timestamps_monotone (allow : Bool) (lines : List Line) :
    (docTimes (parseLinesWith allow lines).records).Chain' (· ≤ ·) := by
  apply parseLinesLoop_chain
  refine ⟨List.chain'_nil, ?_, fun _ => rfl⟩
  intro t ht
  simp [docTimes, emptyAcc] at ht

/-- C4 (code bug): the parser state's `cRecords` list is never appended to,
so `len(p.cRecords) == 0` always holds and every C line — not only the first
— is matched against the task-declaration shape first: on an input with two
identical declaration-shaped C lines, the second also yields a
task-declaration record even though the waypoint shape (the only shape the
claim allows for later C lines) rejects it. -/
theorem C4_second_c_line_still_declaration :
    (parseLines (["C110524093545000000000502",
        "C110524093545000000000502"].map String.toList)).records =
      [some (.cRecDeclaration 1715420145000000000 0 0 0 5 2 []),
       some (.cRecDeclaration 1715420145000000000 0 0 0 5 2 [])] ∧
    matchCRecordWaypoint "C110524093545000000000502".toList = none ∧
    (parseLines (["C110524093545000000000502",
        "C110524093545000000000502"].map String.toList)).errs = [] := by
  refine ⟨?_, by decide, ?_⟩ <;> decide

/-- C5 (counterexample): the line "E" belongs to a record type with a
lenient fallback shape, yet parsing it produces no record and only the
structural `invalid E record` error, refuting "such lines never yield a nil
record with only a structural error" read over all lines of those types. -/
theorem C5_counterexample :
    (parseLines (["E"].map String.toList)).records = [none] ∧
    (parseLines (["E"].map String.toList)).errs = [⟨1, [.invalidRecord 'E']⟩] := by
  refine ⟨?_, ?_⟩ <;> decide

/-- C5 (amended): whenever the strict shape of a record type with a lenient
fallback fails but the fallback shape matches (event without code, log
message without tag, header with invalid source), a record is produced and
it reports `Valid() = false`; only lines matching neither shape yield a nil
record with a structural error. -/
theorem C5_fallbacks_produce_invalid_records (p : ParserState) (line : Line) :
    (matchERecord line = none →
      ∀ m, matchERecordWithoutTLC line = some m →
        ∃ r, (parseERecord p line).1 = some r ∧ r.valid = false) ∧
    (matchLRecord line = none →
      ∀ t, matchLRecordWithoutTLC line = some t →
        ∃ r, (parseLRecord p line).1 = some r ∧ r.valid = false) ∧
    (matchHFDTERecord line = none → matchHFFXARecord line = none →
      matchHRecord line = none →
      ∀ m, matchHRecordWithInvalidSource line = some m →
        ∃ r, (parseHRecord p line).1 = some r ∧ r.valid = false) := by
  refine ⟨?_, ?_, ?_⟩
  · intro h1 m h2
    simp only [parseERecord, h1, h2]
    exact ⟨_, rfl, rfl⟩
  · intro h1 t h2
    simp only [parseLRecord, h1, h2]
    exact ⟨_, rfl, rfl⟩
  · intro h1 h2 h3 m h4
    obtain ⟨src, tlc, longName, value?⟩ := m
    simp only [parseHRecord, h1, h2, h3, h4]
    exact ⟨_, rfl, rfl⟩

/-- C5 (witness): a concrete event line whose code slot is not three
uppercase letters takes the fallback and yields an invalid record. -/
theorem C5_fallbacks_witness :
    ∃ r, (parseERecord initParser "E123456x".toList).1 = some r ∧ r.valid = false :=
  (C5_fallbacks_produce_invalid_records initParser ("E123456x".toList)).1 (by decide)
    (['1', '2'], ['3', '4'], ['5', '6'], ['x']) (by decide)

/-- C6 (counterexample): an input of an empty line followed by "G" has two
input lines but the document's record list has a single slot — empty lines
are skipped entirely, not preserved as slots, refuting "exactly one slot per
input line, including empty lines". -/
theorem C6_counterexample :
    (["", "G"].map String.toList).length = 2 ∧
    (parseLines (["", "G"].map String.toList)).records.length = 1 ∧
    (parseLines (["", "G"].map String.toList)).errs = [] := by
  refine ⟨rfl, ?_, ?_⟩ <;> decide

/-- C6 (amended): the document's ordered record list has exactly one slot
per non-empty input line (unparseable non-empty lines occupy placeholder
slots, counted here), empty lines are skipped by the dispatcher without
producing a slot, and every reported error points at a non-empty line. -/
theorem C6_one_slot_per_nonempty_line (lines : List Line) :
    (parseLines lines).records.length = (lines.filter (fun l => l.length != 0)).length ∧
    ∀ e ∈ (parseLines lines).errs,
      ∃ j l, lines[j]? = some l ∧ l.length ≠ 0 ∧ e.line = j + 1 := by
  constructor
  · simpa [parseLines, parseLinesWith, emptyAcc] using
      parseLinesLoop_records_length lines { initParser with allowInvalidChars := false } emptyAcc 0
  · intro e he
    rcases parseLinesLoop_errs lines { initParser with allowInvalidChars := false } emptyAcc 0 e
        he with hmem | ⟨j, l, hj, hl, hline⟩
    · simp [emptyAcc] at hmem
    · exact ⟨j, l, hj, hl, by omega⟩

/-- C6 (witness): on the concrete input of an empty line and "G" the slot
count equals the non-empty line count. -/
theorem C6_one_slot_witness :
    (parseLines (["", "G"].map String.toList)).records.length =
      ((["", "G"].map String.toList).filter (fun l => l.length != 0)).length :=
  (C6_one_slot_per_nonempty_line (["", "G"].map String.toList)).1

/-- C7: the single line "X" yields exactly one record slot holding no record
and exactly one unknown-record-type error at line 1; in general any line
whose leading character is outside the recognized set dispatches to no
record and an unknown-record-type error, whose message renders the
character literally when printable and as a quoted hex escape otherwise. -/
theorem C7_unknown_record_type :
    ((parseLines (["X"].map String.toList)).records = [none] ∧
      (parseLines (["X"].map String.toList)).errs = [⟨1, [.unknownRecordType 'X']⟩]) ∧
    (∀ (p : ParserState) (c : Char) (cs : Line), recognizedRecordType c = false →
      dispatchLine p (c :: cs) = (none, [.unknownRecordType c], p)) ∧
    unknownRecordTypeMessage 'X' = "X: unknown record type" ∧
    unknownRecordTypeMessage (Char.ofNat 1) = "\"\\x01\": unknown record type" ∧
    unknownRecordTypeMessage (Char.ofNat 0xFF) = String.mk [Char.ofNat 0xFF] ++ ": unknown record type" := by
  refine ⟨⟨?_, ?_⟩, dispatchLine_unknown, ?_, ?_, ?_⟩ <;> decide

/-- C7 (witness): the dispatch clause applied at the unrecognized character
X with an empty remainder. -/
theorem C7_unknown_witness :
    dispatchLine initParser ('X' :: []) = (none, [.unknownRecordType 'X'], initParser) :=
  C7_unknown_record_type.2.1 initParser 'X' [] (by decide)

/-! ## Addition-table replacement (C2) -/

theorem mem_insertAssoc {α : Type} (m : List (Line × α)) (k1 : Line) (v1 : α)
    (k : Line) (v : α) (h : (k, v) ∈ insertAssoc m k1 v1) : (k, v) ∈ m ∨ k = k1 := by
  induction m with
  | nil =>
    simp [insertAssoc] at h
    exact Or.inr h.1
  | cons kv rest ih =>
    obtain ⟨k2, v2⟩ := kv
    unfold insertAssoc at h
    split at h
    · rcases List.mem_cons.mp h with heq | hmem
      · injection heq with h1 h2
        exact Or.inr h1
      · exact Or.inl (List.mem_cons_of_mem _ hmem)
    · rcases List.mem_cons.mp h with heq | hmem
      · exact Or.inl (heq ▸ List.mem_cons_self _ _)
      · rcases ih hmem with hm | hk
        · exact Or.inl (List.mem_cons_of_mem _ hm)
        · exact Or.inr hk

theorem decodeAdditions_keys (adds : List RecordAddition) (line : Line) :
    ∀ (m : List (Line × Int)) (errs : List PErr) (k : Line) (v : Int),
      (k, v) ∈ (decodeAdditions adds line m errs).1 →
      (k, v) ∈ m ∨ k ∈ adds.map RecordAddition.TLC := by
  induction adds with
  | nil =>
    intro m errs k v h
    exact Or.inl h
  | cons a rest ih =>
    intro m errs k v h
    unfold decodeAdditions at h
    split at h
    · rcases ih _ _ k v h with hm | hk
      · rcases mem_insertAssoc _ _ _ _ _ hm with hm2 | hk2
        · exact Or.inl hm2
        · exact Or.inr (by simp [hk2])
      · exact Or.inr (by simp [hk])
    · rcases ih _ _ k v h with hm | hk
      · exact Or.inl hm
      · exact Or.inr (by simp [hk])

theorem parseTime_fields (q : ParserState) (hh mm ss : Line) (ns : Int) (errs : List PErr) :
    (parseTime q hh mm ss ns errs).2.2.kRecordAdditions = q.kRecordAdditions ∧
    (parseTime q hh mm ss ns errs).2.2.nRecordAdditions = q.nRecordAdditions ∧
    (parseTime q hh mm ss ns errs).2.2.bRecordAdditions = q.bRecordAdditions ∧
    (parseTime q hh mm ss ns errs).2.2.tdsBRecordAddition = q.tdsBRecordAddition ∧
    (parseTime q hh mm ss ns errs).2.2.fracSecondMul = q.fracSecondMul ∧
    (parseTime q hh mm ss ns errs).2.2.ladBRecordAddition = q.ladBRecordAddition ∧
    (parseTime q hh mm ss ns errs).2.2.lodBRecordAddition = q.lodBRecordAddition := by
  cases hd : q.date <;> simp [parseTime, hd]

/-- C2 (counterexample): after a first I record declaring FXA (columns
36-38) and a second I record declaring only ABC (columns 36-37), a fix line
long enough for both decodes an addition mapping containing both codes —
the FXA entry from the superseded declaration is retained, refuting "wholly
replaces ... with no entries merged or retained" for the I kind. -/
theorem C2_counterexample :
    (parseLines (["I013638FXA", "I013637ABC",
        "B1005364607690N00610358EA0000001265123"].map String.toList)).records =
      [some (.iRec [⟨"FXA".toList, 36, 38⟩]),
       some (.iRec [⟨"ABC".toList, 36, 37⟩]),
       some (.bRec zeroTimeNs 46 7690 false 6 10358 false 'A' 0 1265
         [("FXA".toList, 123), ("ABC".toList, 12)])] := by
  decide

theorem applyIRecord_tables (p : ParserState) (adds : List RecordAddition) :
    (applyIRecord p adds).bRecordAdditions = p.bRecordAdditions ++ adds ∧
    (applyIRecord p adds).bRecordsAdditionsByTLC =
      adds.foldl (fun m a => insertAssoc m a.TLC a) p.bRecordsAdditionsByTLC := by
  unfold applyIRecord
  dsimp only
  repeat' split
  all_goals simp

/-- C2 (amended): a successfully parsed J or M declaration record wholly
replaces the K-record or N-record addition table, and a subsequent matching
K line then decodes addition keys only from that most recent declaration;
but a successfully parsed I declaration record APPENDS its additions to the
fix-record table, retaining the entries installed by earlier I records. -/
theorem C2_replacement_by_kind (p : ParserState) (acc : ParseAcc)
    (adds : List RecordAddition) :
    ((applyRecord p acc (some (.jRec adds))).1.kRecordAdditions = adds) ∧
    ((applyRecord p acc (some (.mRec adds))).1.nRecordAdditions = adds) ∧
    ((applyRecord p acc (some (.iRec adds))).1.bRecordAdditions =
      p.bRecordAdditions ++ adds) ∧
    (∀ (line : Line) (m : Line × Line × Line × Line), matchKNRecord line = some m →
      ∃ t a errs2 p2,
        parseKRecord (applyRecord p acc (some (.jRec adds))).1 line =
          (some (.kRec t a), errs2, p2) ∧
        ∀ k v, (k, v) ∈ a → k ∈ adds.map RecordAddition.TLC) := by
  refine ⟨rfl, rfl, ?_, ?_⟩
  · exact (applyIRecord_tables p adds).1
  · intro line m hm
    obtain ⟨hh, mm, ss, restL⟩ := m
    have hp1 : (applyRecord p acc (some (.jRec adds))).1 =
      { p with kRecordAdditions := adds } := rfl
    rw [hp1]
    unfold parseKRecord
    rw [hm]
    dsimp only
    refine ⟨_, _, _, _, rfl, ?_⟩
    intro k v hkv
    rw [(parseTime_fields { p with kRecordAdditions := adds } hh mm ss 0 []).1] at hkv
    by_cases hlen : adds.length > 0
    · rw [if_pos hlen] at hkv
      rcases decodeAdditions_keys adds line [] _ k v hkv with hnil | hk
      · simp at hnil
      · exact hk
    · rw [if_neg hlen] at hkv
      simp at hkv

/-- C2 (witness): after a J record declaring HDT at columns 8-10, a K line
decodes addition keys only from that declaration. -/
theorem C2_replacement_witness :
    ∃ t a errs2 p2,
      parseKRecord (applyRecord initParser emptyAcc
          (some (.jRec [⟨"HDT".toList, 8, 10⟩]))).1 ("K081005123".toList) =
        (some (.kRec t a), errs2, p2) ∧
      ∀ k v, (k, v) ∈ a →
        k ∈ ([⟨"HDT".toList, 8, 10⟩] : List RecordAddition).map RecordAddition.TLC :=
  (C2_replacement_by_kind initParser emptyAcc [⟨"HDT".toList, 8, 10⟩]).2.2.2
    ("K081005123".toList) (['0', '8'], ['1', '0'], ['0', '5'], ['1', '2', '3']) (by decide)

/-! ## Per-addition decode outcomes (C3) -/

/-- The outcome `RecordAddition.intValue` reports for one addition on one
line: `none` when the value decodes, otherwise the error produced (missing
addition when the line is too short, else the `atoi` syntax error). -/
def additionOutcome (line : Line) (a : RecordAddition) : Option PErr :=
  if (line.length : Int) < a.FinishColumn then
    some (.missingAddition a.TLC a.StartColumn a.FinishColumn)
  else
    match atoi (a.slice line) with
    | .error e => some e
    | .ok _ => none

theorem intValue_eq (a : RecordAddition) (line : Line) (errs : List PErr) :
    a.intValue line errs =
      match additionOutcome line a with
      | none => (atoiV (a.slice line), errs, true)
      | some e => (0, errs ++ [e], false) := by
  unfold RecordAddition.intValue RecordAddition.bytesValue additionOutcome
  by_cases hlen : (line.length : Int) < a.FinishColumn
  · rw [if_pos hlen, if_pos hlen]
  · rw [if_neg hlen, if_neg hlen]
    cases hat : atoi (a.slice line) with
    | error e => simp [hat]
    | ok v => simp [hat, atoiV]

theorem lookupAssoc_insert_self {α : Type} (m : List (Line × α)) (k : Line) (v : α) :
    lookupAssoc (insertAssoc m k v) k = some v := by
  induction m with
  | nil => simp [insertAssoc, lookupAssoc]
  | cons kv rest ih =>
    obtain ⟨k1, v1⟩ := kv
    unfold insertAssoc
    by_cases h : k1 = k
    · rw [if_pos h]
      simp [lookupAssoc]
    · rw [if_neg h]
      unfold lookupAssoc
      rw [if_neg h]
      exact ih

theorem lookupAssoc_insert_ne {α : Type} (m : List (Line × α)) (k : Line) (v : α)
    (k2 : Line) (hne : k2 ≠ k) :
    lookupAssoc (insertAssoc m k v) k2 = lookupAssoc m k2 := by
  induction m with
  | nil =>
    simp only [insertAssoc, lookupAssoc]
    rw [if_neg (fun h => hne h.symm)]
  | cons kv rest ih =>
    obtain ⟨k1, v1⟩ := kv
    unfold insertAssoc
    by_cases h : k1 = k
    · rw [if_pos h]
      unfold lookupAssoc
      rw [if_neg (fun hx => hne hx.symm), if_neg (by rw [h]; exact fun hx => hne hx.symm)]
    · rw [if_neg h]
      unfold lookupAssoc
      by_cases h2 : k1 = k2
      · rw [if_pos h2, if_pos h2]
      · rw [if_neg h2, if_neg h2]
        exact ih

theorem length_insertAssoc_new {α : Type} (m : List (Line × α)) (k : Line) (v : α)
    (h : lookupAssoc m k = none) : (insertAssoc m k v).length = m.length + 1 := by
  induction m with
  | nil => simp [insertAssoc]
  | cons kv rest ih =>
    obtain ⟨k1, v1⟩ := kv
    unfold lookupAssoc at h
    unfold insertAssoc
    by_cases hk : k1 = k
    · rw [if_pos hk] at h
      cases h
    · rw [if_neg hk] at h
      rw [if_neg hk]
      simp [ih h]

theorem decodeAdditions_lookup_untouched (line : Line) :
    ∀ (adds : List RecordAddition) (m : List (Line × Int)) (errs : List PErr) (k : Line),
      k ∉ adds.map RecordAddition.TLC →
      lookupAssoc (decodeAdditions adds line m errs).1 k = lookupAssoc m k := by
  intro adds
  induction adds with
  | nil => intro m errs k _; rfl
  | cons a rest ih =>
    intro m errs k hk
    simp only [List.map_cons, List.mem_cons, not_or] at hk
    unfold decodeAdditions
    rw [intValue_eq]
    cases ho : additionOutcome line a with
    | none =>
      dsimp only
      rw [ih _ _ k hk.2, lookupAssoc_insert_ne _ _ _ _ hk.1]
    | some e =>
      dsimp only
      exact ih _ _ k hk.2

theorem decodeAdditions_spec (line : Line) :
    ∀ (adds : List RecordAddition) (m : List (Line × Int)) (errs0 : List PErr),
      (adds.map RecordAddition.TLC).Nodup →
      (∀ a ∈ adds, lookupAssoc m a.TLC = none) →
      ((∀ a ∈ adds, additionOutcome line a = none →
          lookupAssoc (decodeAdditions adds line m errs0).1 a.TLC =
            some (atoiV (a.slice line))) ∧
       (∀ a ∈ adds, additionOutcome line a ≠ none →
          lookupAssoc (decodeAdditions adds line m errs0).1 a.TLC = none) ∧
       (decodeAdditions adds line m errs0).1.length =
         m.length + (adds.filter (fun b => (additionOutcome line b).isNone)).length ∧
       (decodeAdditions adds line m errs0).2 =
         errs0 ++ adds.filterMap (additionOutcome line)) := by
  intro adds
  induction adds with
  | nil =>
    intro m errs0 _ _
    exact ⟨by simp, by simp, by simp [decodeAdditions], by simp [decodeAdditions]⟩
  | cons a rest ih =>
    intro m errs0 hnodup hdisj
    rw [List.map_cons, List.nodup_cons] at hnodup
    have hanot : a.TLC ∉ rest.map RecordAddition.TLC := hnodup.1
    have hnodup2 : (rest.map RecordAddition.TLC).Nodup := hnodup.2
    unfold decodeAdditions
    rw [intValue_eq]
    cases ho : additionOutcome line a with
    | none =>
      dsimp only
      have hdisj2 : ∀ b ∈ rest,
          lookupAssoc (insertAssoc m a.TLC (atoiV (a.slice line))) b.TLC = none := by
        intro b hb
        by_cases hbk : b.TLC = a.TLC
        · exact absurd (hbk ▸ List.mem_map_of_mem _ hb) hanot
        · rw [lookupAssoc_insert_ne _ _ _ _ hbk]
          exact hdisj b (List.mem_cons_of_mem _ hb)
      obtain ⟨ih1, ih2, ih3, ih4⟩ :=
        ih (insertAssoc m a.TLC (atoiV (a.slice line))) errs0 hnodup2 hdisj2
      refine ⟨?_, ?_, ?_, ?_⟩
      · intro b hb hob
        rcases List.mem_cons.mp hb with rfl | hbr
        · rw [decodeAdditions_lookup_untouched line rest _ _ _ hanot, lookupAssoc_insert_self]
        · exact ih1 b hbr hob
      · intro b hb hob
        rcases List.mem_cons.mp hb with rfl | hbr
        · exact absurd ho hob
        · exact ih2 b hbr hob
      · rw [ih3, length_insertAssoc_new m a.TLC _ (hdisj a (List.mem_cons_self a rest)),
          List.filter_cons]
        simp [ho]
        omega
      · rw [ih4, List.filterMap_cons]
        simp [ho]
    | some e =>
      dsimp only
      have hdisj2 : ∀ b ∈ rest, lookupAssoc m b.TLC = none :=
        fun b hb => hdisj b (List.mem_cons_of_mem _ hb)
      obtain ⟨ih1, ih2, ih3, ih4⟩ := ih m (errs0 ++ [e]) hnodup2 hdisj2
      refine ⟨?_, ?_, ?_, ?_⟩
      · intro b hb hob
        rcases List.mem_cons.mp hb with rfl | hbr
        · rw [ho] at hob
          cases hob
        · exact ih1 b hbr hob
      · intro b hb hob
        rcases List.mem_cons.mp hb with rfl | hbr
        · rw [decodeAdditions_lookup_untouched line rest _ _ _ hanot]
          exact hdisj b (List.mem_cons_self _ _)
        · exact ih2 b hbr hob
      · rw [ih3, List.filter_cons]
        simp [ho]
      · rw [ih4, List.filterMap_cons]
        simp [ho]

/-- C3: for an installed addition table with k distinct codes, a data line
on which every addition's column range fits and parses decodes exactly k
values keyed by the declared codes with no new error; an addition whose
finish column exceeds the line length is omitted from the mapping and
reports exactly one missing-addition error; an addition whose slice is not
a well-formed signed integer is omitted and reports the syntax error; the
per-line error list appends exactly one error per omitted code in order,
and a matching fix line always still produces a record. -/
theorem C3_addition_decoding (adds : List RecordAddition) (line : Line) (errs0 : List PErr)
    (hnodup : (adds.map RecordAddition.TLC).Nodup) :
    ((∀ a ∈ adds, additionOutcome line a = none) →
      (decodeAdditions adds line [] errs0).1.length = adds.length ∧
      (decodeAdditions adds line [] errs0).2 = errs0) ∧
    (∀ a ∈ adds, additionOutcome line a = none →
      lookupAssoc (decodeAdditions adds line [] errs0).1 a.TLC =
        some (atoiV (a.slice line))) ∧
    (∀ a ∈ adds, additionOutcome line a ≠ none →
      lookupAssoc (decodeAdditions adds line [] errs0).1 a.TLC = none) ∧
    ((decodeAdditions adds line [] errs0).2 =
      errs0 ++ adds.filterMap (additionOutcome line)) ∧
    (∀ a ∈ adds, (line.length : Int) < a.FinishColumn →
      additionOutcome line a = some (.missingAddition a.TLC a.StartColumn a.FinishColumn)) ∧
    (∀ (p : ParserState) (mb : BMatch), matchBRecord line = some mb →
      ∃ r, (parseBRecord p line).1 = some r) := by
  obtain ⟨h1, h2, h3, h4⟩ :=
    decodeAdditions_spec line adds [] errs0 hnodup (by intro a _; rfl)
  refine ⟨?_, h1, h2, h4, ?_, ?_⟩
  · intro hall
    refine ⟨?_, ?_⟩
    · rw [h3, List.filter_eq_self.mpr ?_]
      · simp
      · intro a ha
        simp [hall a ha]
    · rw [h4, List.filterMap_eq_nil_iff.mpr hall]
      simp
  · intro a _ hlen
    simp [additionOutcome, hlen]
  · intro p mb hmb
    unfold parseBRecord
    rw [hmb]
    dsimp only
    exact ⟨_, rfl⟩

/-- C3 (witness): the spec example — additions FXA at columns 36-38 and SIU
at 39-40 on a 40-character fix line — decodes the FXA value from its exact
column range. -/
theorem C3_addition_witness :
    lookupAssoc (decodeAdditions [⟨"FXA".toList, 36, 38⟩, ⟨"SIU".toList, 39, 40⟩]
        ("B1005364607690N00610358EA000000126500612".toList) [] []).1 ("FXA".toList) =
      some (atoiV ((⟨"FXA".toList, 36, 38⟩ : RecordAddition).slice
        ("B1005364607690N00610358EA000000126500612".toList))) :=
  (C3_addition_decoding [⟨"FXA".toList, 36, 38⟩, ⟨"SIU".toList, 39, 40⟩]
      ("B1005364607690N00610358EA000000126500612".toList) [] (by decide)).2.1
    ⟨"FXA".toList, 36, 38⟩ (by decide) (by decide)

/-- C9: the midnight-rollover loop terminates: for any watermark, any
non-negative duration since midnight, and any current date, finitely many
one-day advances reach the first candidate timestamp not earlier than the
watermark, so timestamp reconstruction is a total function. -/
theorem C9_rollover_terminates (prev dur date : Int) (_hdur : 0 ≤ dur) :
    ∃ k : Nat, rolloverDate prev dur date = date + (k : Int) * dayNs ∧
      ¬(date + (k : Int) * dayNs + dur < prev) ∧
      ∀ j : Nat, j < k → date + (j : Int) * dayNs + dur < prev :=
  rolloverDate_spec prev dur date

/-- C9 (witness): with the watermark two days ahead of the date the loop
stops after finitely many steps at the first non-earlier candidate. -/
theorem C9_rollover_witness :
    ∃ k : Nat, rolloverDate (2 * dayNs) 0 0 = 0 + (k : Int) * dayNs ∧
      ¬((0 : Int) + (k : Int) * dayNs + 0 < 2 * dayNs) ∧
      ∀ j : Nat, j < k → (0 : Int) + (j : Int) * dayNs + 0 < 2 * dayNs :=
  C9_rollover_terminates (2 * dayNs) 0 0 (by decide)

/-! ## Column-slice safety of installed additions (C10) -/

theorem additionsLoop_bounds (c0 : Int) :
    ∀ (triples : List (Line × Line × Line)) (startColumn : Int)
      (adds : List RecordAddition) (errs : List PErr),
      c0 ≤ startColumn →
      (∀ a ∈ adds, c0 ≤ a.StartColumn ∧ a.StartColumn ≤ a.FinishColumn) →
      ∀ a ∈ (additionsLoop triples startColumn adds errs).1,
        c0 ≤ a.StartColumn ∧ a.StartColumn ≤ a.FinishColumn := by
  intro triples
  induction triples with
  | nil =>
    intro s adds errs hs hadds a ha
    exact hadds a ha
  | cons t rest ih =>
    intro s adds errs hs hadds a ha
    obtain ⟨sd, fd, tlc⟩ := t
    unfold additionsLoop at ha
    dsimp only at ha
    split at ha
    · exact ih s adds _ hs hadds a ha
    · split at ha
      · exact ih s adds _ hs hadds a ha
      · rename_i hstart hfin
        push_neg at hstart hfin
        refine ih _ _ _ ?_ ?_ a ha
        · omega
        · intro b hb
          rcases List.mem_append.mp hb with hbm | hbnew
          · exact hadds b hbm
          · simp at hbnew
            subst hbnew
            constructor <;> simp <;> omega

theorem parseRecordAdditions_bounds (line : Line) (c0 : Int)
    (adds : List RecordAddition) (errs : List PErr)
    (h : parseRecordAdditions line c0 = some (adds, errs)) :
    ∀ a ∈ adds, c0 ≤ a.StartColumn ∧ a.StartColumn ≤ a.FinishColumn := by
  unfold parseRecordAdditions at h
  split at h
  · cases h
  · rename_i nStr body heq
    dsimp only at h
    split at h
    · cases h
    · injection h with h
      intro a ha
      refine additionsLoop_bounds c0 (additionTriples body) c0 [] [] le_rfl (by simp) a ?_
      rw [h]
      exact ha

/-- Being safe to slice: the column range is positive and well ordered, and
on any line at least as long as the finish column the slice lies fully
within bounds, has exactly the declared width, and `bytesValue` succeeds. -/
def sliceSafe (a : RecordAddition) : Prop :=
  0 < a.StartColumn ∧ a.StartColumn ≤ a.FinishColumn ∧
  ∀ l2 : Line, (a.FinishColumn : Int) ≤ l2.length →
    (a.StartColumn - 1).toNat + (a.FinishColumn - a.StartColumn + 1).toNat ≤ l2.length ∧
    (a.slice l2).length = (a.FinishColumn - a.StartColumn + 1).toNat ∧
    a.bytesValue l2 [] = (some (a.slice l2), [], true)

theorem sliceSafe_of_bounds (a : RecordAddition) (h1 : 0 < a.StartColumn)
    (h2 : a.StartColumn ≤ a.FinishColumn) : sliceSafe a := by
  refine ⟨h1, h2, ?_⟩
  intro l2 hlen
  refine ⟨by omega, ?_, ?_⟩
  · unfold RecordAddition.slice
    rw [List.length_take, List.length_drop]
    omega
  · unfold RecordAddition.bytesValue
    rw [if_neg (by omega)]

/-- C10: every addition installed by a successfully parsed
addition-declaration record has its start column at or past the family's
initial cursor (36 for I records, 8 for J and M records) and a finish
column at or past the start column, so decoding it from any line whose
length reaches the finish column slices the byte range
`[start-1, finish)` fully within the line's bounds. -/
theorem C10_addition_slicing_safe (p : ParserState) (line : Line) :
    (∀ adds errs2 p2, parseIRecord p line = (some (.iRec adds), errs2, p2) →
      ∀ a ∈ adds, (36 : Int) ≤ a.StartColumn ∧ sliceSafe a) ∧
    (∀ adds errs2 p2, parseJRecord p line = (some (.jRec adds), errs2, p2) →
      ∀ a ∈ adds, (8 : Int) ≤ a.StartColumn ∧ sliceSafe a) ∧
    (∀ adds errs2 p2, parseMRecord p line = (some (.mRec adds), errs2, p2) →
      ∀ a ∈ adds, (8 : Int) ≤ a.StartColumn ∧ sliceSafe a) := by
  refine ⟨?_, ?_, ?_⟩ <;> intro adds errs2 p2 h a ha
  · unfold parseIRecord at h
    cases heq : parseRecordAdditions line 36 with
    | none =>
      rw [heq] at h
      cases h
    | some res =>
      obtain ⟨adds1, errs1⟩ := res
      rw [heq] at h
      dsimp only at h
      by_cases hemp : errs1.isEmpty
      · rw [if_pos hemp] at h
        injection h with h1 h2
        injection h1 with h1
        cases h1
        have hb := parseRecordAdditions_bounds line 36 _ _ heq a ha
        exact ⟨hb.1, sliceSafe_of_bounds a (by omega) hb.2⟩
      · rw [if_neg hemp] at h
        cases h
  · unfold parseJRecord at h
    cases heq : parseRecordAdditions line 8 with
    | none =>
      rw [heq] at h
      cases h
    | some res =>
      obtain ⟨adds1, errs1⟩ := res
      rw [heq] at h
      dsimp only at h
      by_cases hemp : errs1.isEmpty
      · rw [if_pos hemp] at h
        injection h with h1 h2
        injection h1 with h1
        cases h1
        have hb := parseRecordAdditions_bounds line 8 _ _ heq a ha
        exact ⟨hb.1, sliceSafe_of_bounds a (by omega) hb.2⟩
      · rw [if_neg hemp] at h
        cases h
  · unfold parseMRecord at h
    cases heq : parseRecordAdditions line 8 with
    | none =>
      rw [heq] at h
      cases h
    | some res =>
      obtain ⟨adds1, errs1⟩ := res
      rw [heq] at h
      dsimp only at h
      by_cases hemp : errs1.isEmpty
      · rw [if_pos hemp] at h
        injection h with h1 h2
        injection h1 with h1
        cases h1
        have hb := parseRecordAdditions_bounds line 8 _ _ heq a ha
        exact ⟨hb.1, sliceSafe_of_bounds a (by omega) hb.2⟩
      · rw [if_neg hemp] at h
        cases h

/-- C10 (witness): the additions installed by the I record
`I023638FXA3940SIU` are slice-safe, shown for FXA at columns 36-38. -/
theorem C10_addition_witness :
    (36 : Int) ≤ (⟨"FXA".toList, 36, 38⟩ : RecordAddition).StartColumn ∧
    sliceSafe ⟨"FXA".toList, 36, 38⟩ :=
  (C10_addition_slicing_safe initParser ("I023638FXA3940SIU".toList)).1
    [⟨"FXA".toList, 36, 38⟩, ⟨"SIU".toList, 39, 40⟩] [] initParser (by decide)
    ⟨"FXA".toList, 36, 38⟩ (by decide)

/-! ## Sub-second scale factor (C8) -/

theorem applyIRecord_scale (p : ParserState) (adds : List RecordAddition)
    (a : RecordAddition)
    (h : lookupAssoc (applyIRecord p adds).bRecordsAdditionsByTLC "TDS".toList = some a) :
    (applyIRecord p adds).tdsBRecordAddition = some a ∧
    (applyIRecord p adds).fracSecondMul =
      intPow 10 (9 - (a.FinishColumn - a.StartColumn + 1)).toNat := by
  rw [(applyIRecord_tables p adds).2] at h
  unfold applyIRecord
  dsimp only
  rw [h]
  exact ⟨rfl, rfl⟩

theorem parseBRecord_nanos (p : ParserState) (line : Line) (mb : BMatch)
    (a : RecordAddition) (n : Nat) (v d : Int)
    (hmb : matchBRecord line = some mb)
    (htds : p.tdsBRecordAddition = some a)
    (hfrac : p.fracSecondMul = 10 ^ (9 - n))
    (hn : n ≤ 9)
    (hint : a.intValue line [] = (v, [], true))
    (hv0 : 0 ≤ v) (hvlt : v < 10 ^ n)
    (hd : p.date = some d) (hdvd : (1000000000 : Int) ∣ d) :
    ∃ r t, (parseBRecord p line).1 = some r ∧ r.time? = some t ∧
      t.emod 1000000000 = v * 10 ^ (9 - n) := by
  unfold parseBRecord
  rw [hmb]
  dsimp only
  rw [htds]
  dsimp only
  rw [hint]
  dsimp only
  rw [hfrac, parseTime_some p mb.hh mb.mm mb.ss ((10 : Int) ^ (9 - n) * v) [] d hd]
  dsimp only
  refine ⟨_, _, rfl, rfl, ?_⟩
  obtain ⟨k, hk, -, -⟩ := rolloverDate_spec p.prevTime
    (durationSinceMidnight mb.hh mb.mm mb.ss ((10 : Int) ^ (9 - n) * v)) d
  rw [hk]
  obtain ⟨e, he⟩ := hdvd
  have hns0 : 0 ≤ (10 : Int) ^ (9 - n) * v := mul_nonneg (by positivity) hv0
  have hns1 : (10 : Int) ^ (9 - n) * v < 10 ^ 9 := by
    have h1 : (10 : Int) ^ (9 - n) * v < 10 ^ (9 - n) * 10 ^ n :=
      mul_lt_mul_of_pos_left hvlt (by positivity)
    have h2 : (10 : Int) ^ (9 - n) * 10 ^ n = 10 ^ 9 := by
      rw [← pow_add]
      congr 1
      omega
    omega
  have hsplit : d + (k : Int) * dayNs +
      durationSinceMidnight mb.hh mb.mm mb.ss ((10 : Int) ^ (9 - n) * v) =
      (10 : Int) ^ (9 - n) * v + 1000000000 *
        (e + (k : Int) * 86400 + atoiV mb.hh * 3600 + atoiV mb.mm * 60 + atoiV mb.ss) := by
    rw [he]
    unfold durationSinceMidnight dayNs
    ring
  rw [hsplit, mul_comm v ((10 : Int) ^ (9 - n))]
  set w := (10 : Int) ^ (9 - n) * v with hw
  have hmod : ∀ x y : Int, x.emod y = x % y := fun _ _ => rfl
  rw [hmod]
  omega

theorem parseBRecord_nanos_zero (p : ParserState) (line : Line) (mb : BMatch) (d : Int)
    (hmb : matchBRecord line = some mb)
    (htds : p.tdsBRecordAddition = none)
    (hd : p.date = some d) (hdvd : (1000000000 : Int) ∣ d) :
    ∃ r t, (parseBRecord p line).1 = some r ∧ r.time? = some t ∧
      t.emod 1000000000 = 0 := by
  unfold parseBRecord
  rw [hmb]
  dsimp only
  rw [htds]
  dsimp only
  rw [parseTime_some p mb.hh mb.mm mb.ss 0 [] d hd]
  dsimp only
  refine ⟨_, _, rfl, rfl, ?_⟩
  obtain ⟨k, hk, -, -⟩ := rolloverDate_spec p.prevTime
    (durationSinceMidnight mb.hh mb.mm mb.ss 0) d
  rw [hk]
  obtain ⟨e, he⟩ := hdvd
  have hsplit : d + (k : Int) * dayNs + durationSinceMidnight mb.hh mb.mm mb.ss 0 =
      0 + 1000000000 *
        (e + (k : Int) * 86400 + atoiV mb.hh * 3600 + atoiV mb.mm * 60 + atoiV mb.ss) := by
    rw [he]
    unfold durationSinceMidnight dayNs
    ring
  rw [hsplit]
  have hmod : ∀ x y : Int, x.emod y = x % y := fun _ _ => rfl
  rw [hmod]
  omega

/-- C8: the fresh parser's fractional-second multiplier is 10^9; after an I
record leaves a TDS addition of width n ≤ 9 installed, the multiplier is
10^(9-n); a fix record decoded under an installed TDS addition whose
columns hold the integer v (0 ≤ v < 10^n) gets a timestamp whose nanosecond
component is v * 10^(9-n); and with no TDS addition installed the
nanosecond component is 0. -/
theorem C8_subsecond_scale :
    initParser.fracSecondMul = 10 ^ 9 ∧
    (∀ (p : ParserState) (adds : List RecordAddition) (a : RecordAddition) (n : Nat),
      lookupAssoc (applyIRecord p adds).bRecordsAdditionsByTLC "TDS".toList = some a →
      a.FinishColumn - a.StartColumn + 1 = (n : Int) → n ≤ 9 →
      (applyIRecord p adds).tdsBRecordAddition = some a ∧
      (applyIRecord p adds).fracSecondMul = 10 ^ (9 - n)) ∧
    (∀ (p : ParserState) (line : Line) (mb : BMatch) (a : RecordAddition)
        (n : Nat) (v d : Int),
      matchBRecord line = some mb → p.tdsBRecordAddition = some a →
      p.fracSecondMul = 10 ^ (9 - n) → n ≤ 9 →
      a.intValue line [] = (v, [], true) → 0 ≤ v → v < 10 ^ n →
      p.date = some d → (1000000000 : Int) ∣ d →
      ∃ r t, (parseBRecord p line).1 = some r ∧ r.time? = some t ∧
        t.emod 1000000000 = v * 10 ^ (9 - n)) ∧
    (∀ (p : ParserState) (line : Line) (mb : BMatch) (d : Int),
      matchBRecord line = some mb → p.tdsBRecordAddition = none →
      p.date = some d → (1000000000 : Int) ∣ d →
      ∃ r t, (parseBRecord p line).1 = some r ∧ r.time? = some t ∧
        t.emod 1000000000 = 0) := by
  refine ⟨by decide, ?_, ?_, ?_⟩
  · intro p adds a n h1 h2 hn
    have hs := applyIRecord_scale p adds a h1
    refine ⟨hs.1, ?_⟩
    rw [hs.2, h2, intPow_eq_pow]
    congr 1
    omega
  · intro p line mb a n v d hmb htds hfrac hn hint hv0 hvlt hd hdvd
    exact parseBRecord_nanos p line mb a n v d hmb htds hfrac hn hint hv0 hvlt hd hdvd
  · intro p line mb d hmb htds hd hdvd
    exact parseBRecord_nanos_zero p line mb d hmb htds hd hdvd

/-- C8 (witness): under a one-column TDS addition at column 36 whose slice
holds 5, the fix record's timestamp has nanosecond component 5 * 10^8. -/
theorem C8_subsecond_witness :
    ∃ r t,
      (parseBRecord { initParser with
          date := some 0
          tdsBRecordAddition := some ⟨"TDS".toList, 36, 36⟩
          fracSecondMul := 100000000 }
        ("B1005364607690N00610358EA00000012655".toList)).1 = some r ∧
      r.time? = some t ∧ t.emod 1000000000 = 5 * 10 ^ (9 - 1) :=
  C8_subsecond_scale.2.2.1 { initParser with
      date := some 0
      tdsBRecordAddition := some ⟨"TDS".toList, 36, 36⟩
      fracSecondMul := 100000000 }
    ("B1005364607690N00610358EA00000012655".toList)
    ⟨['1', '0'], ['0', '5'], ['3', '6'], ['4', '6'], ['0', '7', '6', '9', '0'], 'N',
      ['0', '0', '6'], ['1', '0', '3', '5', '8'], 'E', 'A',
      ['0', '0', '0', '0', '0'], ['0', '1', '2', '6', '5'], ['5']⟩
    ⟨"TDS".toList, 36, 36⟩ 1 5 0 (by decide) rfl (by decide) (by decide) (by decide)
    (by decide) (by decide) rfl ⟨0, by decide⟩
